import Mathlib

/-!
Verification development for the oto schema builder (`parser/parser.go`).

The Go source is shallowly embedded: pure helpers become Lean functions,
the `Parser` mutable state becomes an explicit `PState` record threaded
through the translation of each Go function, and the mutual recursion
`parseTypeDecl` / `parseObject` / `parseField` is made total with an
explicit fuel parameter (the Go recursion is guarded by the `p.objects`
registration set; fuel only bounds the depth, it never changes a result
that the Go code produces).

External collaborators are embedded as data: the go/types "Type Oracle"
becomes the `TypeExpr` / `Env` model, the Documentation Index becomes
comment strings attached to declarations, the `structtag` library's
output becomes the parsed tag mapping carried on each field declaration,
and `encoding/json.Unmarshal` (used only to accept or reject a metadata
value) is modelled by a small JSON value grammar, `jsonUnmarshal`.
-/

namespace Oto

/-- A JSON value, as produced by decoding into `interface{}`.
Numbers keep their source lexeme (the numeric value itself is never
inspected by the parser code). -/
inductive Jval where
  | null : Jval
  | bool (b : Bool) : Jval
  | num (lit : String) : Jval
  | str (s : String) : Jval
  | arr (elems : List Jval) : Jval
  | obj (fields : List (String × Jval)) : Jval

/-- Drop leading JSON whitespace. -/
def skipWs : List Char → List Char
  | [] => []
  | c :: rest =>
    if c = ' ' ∨ c = '\t' ∨ c = '\n' ∨ c = '\r' then skipWs rest else c :: rest

/-- Decode a single-character JSON string escape. -/
def escChar (c : Char) : Option Char :=
  if c = 'n' then some '\n'
  else if c = 't' then some '\t'
  else if c = 'r' then some '\r'
  else if c = '"' ∨ c = '\\' ∨ c = '/' then some c
  else if c = 'b' then some (Char.ofNat 8)
  else if c = 'f' then some (Char.ofNat 12)
  else none

/-- Hex digit value. -/
def hexVal (c : Char) : Option Nat :=
  if c ≤ '9' ∧ '0' ≤ c then some (c.toNat - '0'.toNat)
  else if 'a' ≤ c ∧ c ≤ 'f' then some (c.toNat - 'a'.toNat + 10)
  else if 'A' ≤ c ∧ c ≤ 'F' then some (c.toNat - 'A'.toNat + 10)
  else none

/-- Parse the body of a JSON string (the opening quote already consumed),
returning the decoded characters and the rest of the input. -/
def parseJStringChars : List Char → Option (List Char × List Char)
  | [] => none
  | '"' :: rest => some ([], rest)
  | '\\' :: 'u' :: h1 :: h2 :: h3 :: h4 :: rest => do
    let v1 ← hexVal h1
    let v2 ← hexVal h2
    let v3 ← hexVal h3
    let v4 ← hexVal h4
    let (s, r) ← parseJStringChars rest
    pure (Char.ofNat (((v1 * 16 + v2) * 16 + v3) * 16 + v4) :: s, r)
  | '\\' :: c :: rest => do
    let e ← escChar c
    let (s, r) ← parseJStringChars rest
    pure (e :: s, r)
  | c :: rest =>
    if c.toNat < 32 then none
    else do
      let (s, r) ← parseJStringChars rest
      pure (c :: s, r)

/-- One or more decimal digits. -/
def digits1 (cs : List Char) : Option (List Char × List Char) :=
  let (ds, rest) := cs.span (·.isDigit)
  if ds.isEmpty then none else some (ds, rest)

/-- JSON integer part: `0` or a nonzero digit followed by digits. -/
def parseIntPart : List Char → Option (List Char × List Char)
  | [] => none
  | c :: rest =>
    if c = '0' then some ([c], rest)
    else if c.isDigit then
      let (ds, rest2) := rest.span (·.isDigit)
      some (c :: ds, rest2)
    else none

/-- Optional fraction part `.digits`. -/
def parseFracPart (cs : List Char) : Option (List Char × List Char) :=
  match cs with
  | '.' :: rest => do
    let (ds, r) ← digits1 rest
    pure ('.' :: ds, r)
  | _ => some ([], cs)

/-- Optional exponent part `[eE][+-]?digits`. -/
def parseExpPart (cs : List Char) : Option (List Char × List Char) :=
  match cs with
  | c :: rest =>
    if c = 'e' ∨ c = 'E' then
      match rest with
      | s :: rest2 =>
        if s = '+' ∨ s = '-' then do
          let (ds, r) ← digits1 rest2
          pure (c :: s :: ds, r)
        else do
          let (ds, r) ← digits1 rest
          pure (c :: ds, r)
      | [] => none
    else some ([], cs)
  | [] => some ([], cs)

/-- JSON number lexeme. -/
def parseNumber (cs : List Char) : Option (List Char × List Char) := do
  let (neg, cs1) :=
    match cs with
    | '-' :: r => ([('-' : Char)], r)
    | _ => (([] : List Char), cs)
  let (ip, cs2) ← parseIntPart cs1
  let (fp, cs3) ← parseFracPart cs2
  let (ep, cs4) ← parseExpPart cs3
  pure (neg ++ ip ++ fp ++ ep, cs4)

mutual

/-- Parse one JSON value. -/
def parseValue : Nat → List Char → Option (Jval × List Char)
  | 0, _ => none
  | fuel + 1, cs =>
    match skipWs cs with
    | 'f' :: 'a' :: 'l' :: 's' :: 'e' :: r => some (.bool false, r)
    | 't' :: 'r' :: 'u' :: 'e' :: r => some (.bool true, r)
    | 'n' :: 'u' :: 'l' :: 'l' :: r => some (.null, r)
    | '"' :: r => (parseJStringChars r).map fun p => (.str (String.mk p.1), p.2)
    | '[' :: r => parseArrayRest fuel r
    | '{' :: r => parseObjRest fuel r
    | cs2 => (parseNumber cs2).map fun p => (.num (String.mk p.1), p.2)

/-- Parse the rest of a JSON array (after `[`). -/
def parseArrayRest : Nat → List Char → Option (Jval × List Char)
  | 0, _ => none
  | fuel + 1, cs =>
    match skipWs cs with
    | ']' :: r => some (.arr [], r)
    | cs2 => parseArrayElems fuel cs2 []

/-- Parse array elements separated by commas, ending at `]`. -/
def parseArrayElems : Nat → List Char → List Jval → Option (Jval × List Char)
  | 0, _, _ => none
  | fuel + 1, cs, acc => do
    let (v, r) ← parseValue fuel cs
    match skipWs r with
    | ',' :: r2 => parseArrayElems fuel r2 (acc ++ [v])
    | ']' :: r2 => some (.arr (acc ++ [v]), r2)
    | _ => none

/-- Parse the rest of a JSON object (after the opening brace). -/
def parseObjRest : Nat → List Char → Option (Jval × List Char)
  | 0, _ => none
  | fuel + 1, cs =>
    match skipWs cs with
    | '\x7d' :: r => some (.obj [], r)
    | cs2 => parseObjMembers fuel cs2 []

/-- Parse object members separated by commas, ending at the closing brace. -/
def parseObjMembers : Nat → List Char → List (String × Jval) →
    Option (Jval × List Char)
  | 0, _, _ => none
  | fuel + 1, cs, acc =>
    match skipWs cs with
    | '"' :: r => do
      let (k, r1) ← parseJStringChars r
      match skipWs r1 with
      | ':' :: r2 => do
        let (v, r3) ← parseValue fuel r2
        match skipWs r3 with
        | ',' :: r4 => parseObjMembers fuel r4 (acc ++ [(String.mk k, v)])
        | '\x7d' :: r4 => some (.obj (acc ++ [(String.mk k, v)]), r4)
        | _ => none
      | _ => none
    | _ => none

end

/-- Model of `encoding/json.Unmarshal` into `interface{}`: accept exactly
one JSON value with optional surrounding whitespace, reject trailing
data. Returns `none` on any decode error. -/
def jsonUnmarshal (s : String) : Option Jval := do
  let cs := s.toList
  let (v, rest) ← parseValue (3 * cs.length + 9) cs
  if (skipWs rest).isEmpty then pure v else none

/-! ## String helpers

Go's `strings` helpers are modelled on character lists so that every
definition evaluates inside the kernel. -/

/-- ASCII whitespace, as trimmed by `strings.TrimSpace` (whose full
Unicode whitespace set is not needed by anything here). -/
def isWsp (c : Char) : Bool :=
  c = ' ' ∨ c = '\t' ∨ c = '\n' ∨ c = '\r' ∨ c = '\x0b' ∨ c = '\x0c'

/-- Trim whitespace from both ends of a character list. -/
def trimChars (cs : List Char) : List Char :=
  ((cs.dropWhile isWsp).reverse.dropWhile isWsp).reverse

/-- `strings.TrimSpace`. -/
def goTrim (s : String) : String :=
  String.mk (trimChars s.toList)

/-- Split on each leftmost non-overlapping occurrence of `sep` (the
fuel argument makes the recursion structural; `length + 1` fuel always
suffices for a non-empty separator). -/
def splitOnFuel (sep : List Char) : Nat → List Char → List Char → List (List Char)
  | 0, cs, acc => [acc.reverse ++ cs]
  | n + 1, cs, acc =>
    match cs with
    | [] => [acc.reverse]
    | c :: rest =>
      if sep.isPrefixOf (c :: rest) then
        acc.reverse :: splitOnFuel sep n ((c :: rest).drop sep.length) []
      else
        splitOnFuel sep n rest (c :: acc)

/-- `strings.Split` for a non-empty separator. -/
def strSplitOn (s sep : String) : List String :=
  (splitOnFuel sep.toList (s.toList.length + 1) s.toList []).map String.mk

/-- `strings.HasPrefix`. -/
def strHasPre (p s : String) : Bool :=
  p.toList.isPrefixOf s.toList

/-- Ordinal (codepoint-wise, case-sensitive) string comparison on
character lists: `a ≤ b` lexicographically. -/
def strLeL (xs ys : List Char) : Bool :=
  match xs, ys with
  | [], _ => true
  | _ :: _, [] => false
  | p :: ps, q :: qs =>
    if p < q then true else if q < p then false else strLeL ps qs

/-- Ordinal string comparison, the order `sort.Slice` sorts by. -/
def strLeB (a b : String) : Bool :=
  strLeL a.toList b.toList

/-! ## Comment metadata extraction (`extractCommentMetadata`) -/

/-- Go map write `metadata[key] = val`: replace an existing entry for the
key, otherwise append. -/
def insertMeta (md : List (String × Jval)) (k : String) (v : Jval) :
    List (String × Jval) :=
  if md.any (·.1 = k) then md.map fun p => if p.1 = k then (k, v) else p
  else md ++ [(k, v)]

/-- Go map read `metadata[key]`. -/
def metaLookup (md : List (String × Jval)) (k : String) : Option Jval :=
  (md.find? (·.1 = k)).map (·.2)

/-- Model of `metadataCommentRegex.MatchString`: the regex `^.*: .*`
matches a (newline-free) line exactly when the line contains the
substring `": "`. -/
def metadataCommentRegexMatch (s : String) : Bool :=
  decide (": ".toList <:+: s.toList)

/-- One step of the line scan inside `extractCommentMetadata`: processes
the remaining lines, threading the metadata map and the accumulated
remainder lines. -/
def extractLines : List String → List (String × Jval) → List String →
    List (String × Jval) × List String
  | [], md, acc => (md, acc)
  | l :: rest, md, acc =>
    let line := goTrim l
    if metadataCommentRegexMatch line then
      let line := goTrim line
      if line = "" then (md, acc)
      else
        let parts := strSplitOn line ": "
        let key := parts.headD ""
        let value := goTrim (String.intercalate ": " parts.tail)
        match jsonUnmarshal value with
        | none => extractLines rest md acc
        | some v => extractLines rest (insertMeta md key v) acc
    else
      let line := goTrim line
      if line = "" then extractLines rest md acc
      else extractLines rest md (acc ++ [line])

/-- `extractCommentMetadata` extracts key value pairs from the comment.
Returns the metadata map, the remaining comment string, and the error
value (which the Go function always returns as nil, modelled `none`). -/
def extractCommentMetadata (comment : String) :
    List (String × Jval) × String × Option String :=
  let r := extractLines (strSplitOn comment "\n") [] []
  (r.1, String.intercalate "\n" r.2, none)

/-! ## The Type Oracle model (go/types handles) -/

/-- A go/types type handle, as seen by `parseTypeDecl`: basic types
(including `error` and `interface\x7b\x7d`), named types (carrying their
package path and package name), pointers, slices, maps and anonymous
struct literals (whose go/types display string is carried as data). -/
inductive TypeExpr where
  | basic (name : String)
  | named (pkgPath pkgName name : String)
  | pointer (elem : TypeExpr)
  | slice (elem : TypeExpr)
  | mapT (key val : TypeExpr)
  | structT (display : String)
deriving DecidableEq, Repr

/-- `types.Type.String()`: fully package-path-qualified display. -/
def typStr : TypeExpr → String
  | .basic n => n
  | .named p _ n => p ++ "." ++ n
  | .pointer e => "*" ++ typStr e
  | .slice e => "[]" ++ typStr e
  | .mapT k v => "map[" ++ typStr k ++ "]" ++ typStr v
  | .structT d => d

/-- `types.TypeString` with the qualifier that always returns the empty
string: named types print as their bare name. -/
def typeStringEmpty : TypeExpr → String
  | .basic n => n
  | .named _ _ n => n
  | .pointer e => "*" ++ typeStringEmpty e
  | .slice e => "[]" ++ typeStringEmpty e
  | .mapT k v => "map[" ++ typeStringEmpty k ++ "]" ++ typeStringEmpty v
  | .structT d => d

/-- `types.TypeString` with the resolver closure of `parseTypeDecl`:
returns the display string and, in visit order, the (path, name) of each
named type's package whose name differs from the current package (each
such visit makes the resolver record an import and overwrite the
type's `Package` and the local `pkgPath` variable). -/
def typeStringRes (curPkgName : String) : TypeExpr → String × List (String × String)
  | .basic n => (n, [])
  | .named p pn n =>
    if pn ≠ curPkgName then (pn ++ "." ++ n, [(p, pn)]) else (n, [])
  | .pointer e =>
    let r := typeStringRes curPkgName e
    ("*" ++ r.1, r.2)
  | .slice e =>
    let r := typeStringRes curPkgName e
    ("[]" ++ r.1, r.2)
  | .mapT k v =>
    let rk := typeStringRes curPkgName k
    let rv := typeStringRes curPkgName v
    ("map[" ++ rk.1 ++ "]" ++ rv.1, rk.2 ++ rv.2)
  | .structT d => (d, [])

/-- `strings.TrimPrefix(s, "*")`. -/
def dropStar (s : String) : String :=
  if strHasPre "*" s then s.drop 1 else s

/-- Modelled from the spec: the lower-camel name helper (`camelizeDown`,
defined in a repository file not present under src) lowercases the
leading character of a name. Only display fields depend on it. -/
def camelizeDown (s : String) : String :=
  match s.toList with
  | [] => ""
  | c :: rest => String.mk (c.toLower :: rest)

/-- A parsed struct tag (`structtag.Tag`): primary value and options. -/
structure FieldTag where
  Value : String := ""
  Options : List String := []
deriving DecidableEq, Repr

/-- A struct field as reported by the Type Oracle, together with the
Documentation Index's comment for it and the Tag Parser's (external
`structtag` library) result for its raw tag string. -/
structure FieldDecl where
  name : String
  exported : Bool := true
  doc : String := ""
  rawTag : String := ""
  tags : Except String (List (String × FieldTag)) := .ok []
  typ : TypeExpr

/-- The underlying shape of a named type: a struct with its fields, or a
non-struct underlying type carried as its display string. -/
inductive Underlying where
  | structU (fields : List FieldDecl)
  | nonStructU (display : String)

/-- The Type Oracle's answer for named types: full name
(path ++ "." ++ name) to underlying shape. -/
def Env := List (String × Underlying)

/-- Look up a named type's underlying shape. -/
def envLookup (env : Env) (key : String) : Option Underlying :=
  (env.find? (·.1 = key)).map (·.2)

/-- `typ.Underlying()` for the unwrapped handle inspected by
`parseTypeDecl` (struct displays come from the oracle's struct data;
field tags inside the display are elided, the string is only ever fed to
the primitive-hint switch, which it never matches). -/
def underlyingExpr (env : Env) : TypeExpr → TypeExpr
  | .named p pn n =>
    match envLookup env (p ++ "." ++ n) with
    | some (.structU fields) =>
      .structT ("struct\x7b" ++
        String.intercalate "; "
          (fields.map fun f => f.name ++ " " ++ typeStringEmpty f.typ) ++ "\x7d")
    | some (.nonStructU d) => .basic d
    | none => .named p pn n
  | t => t

/-- The package currently being parsed: `pkg.Name`, `pkg.PkgPath` and the
doc index used by `commentForType` (type name → doc comment). -/
structure PkgInfo where
  name : String
  path : String
  typeDocs : List (String × String) := []

/-! ## Definition data model -/

/-- The Go `Type` struct (named `OtoType` here since `Type` is a Lean
builtin). -/
structure OtoType where
  TypeID : String := ""
  TypeName : String := ""
  ObjectName : String := ""
  CleanObjectName : String := ""
  UnderlyingTypeName : String := ""
  ObjectNameLowerCamel : String := ""
  Multiple : Bool := false
  Package : String := ""
  IsObject : Bool := false
  IsMap : Bool := false
  JSType : String := ""
  TSType : String := ""
  SwiftType : String := ""
deriving DecidableEq, Repr

/-- `Type.IsOptional`: true for pointer types. -/
def OtoType.IsOptional (f : OtoType) : Bool :=
  strHasPre "*" f.ObjectName

/-- The Go `Field` struct (the `Type Type` member is called `type`). -/
structure Field where
  Name : String := ""
  NameLowerCamel : String := ""
  NameJSON : String := ""
  type : OtoType := {}
  OmitEmpty : Bool := false
  Comment : String := ""
  Tag : String := ""
  ParsedTags : List (String × FieldTag) := []
  Example : Option Jval := none
  Metadata : List (String × Jval) := []
  Skip : Bool := false

/-- The Go `Object` struct. -/
structure Object where
  TypeID : String := ""
  Name : String := ""
  Imported : Bool := false
  Package : String := ""
  Fields : List Field := []
  Comment : String := ""
  Metadata : List (String × Jval) := []

/-- The Go `Method` struct. -/
structure Method where
  Name : String := ""
  NameLowerCamel : String := ""
  InputObject : OtoType := {}
  OutputObject : OtoType := {}
  Comment : String := ""
  Metadata : List (String × Jval) := []

/-- The Go `Service` struct. -/
structure Service where
  Name : String := ""
  Methods : List Method := []
  Comment : String := ""
  Metadata : List (String × Jval) := []

/-- The Go `Definition` struct. -/
structure Definition where
  PackageName : String := ""
  Services : List Service := []
  Objects : List Object := []
  Imports : List (String × String) := []

/-- The mutable `Parser` traversal state: the `objects` registration
set, the in-progress `def.Objects` pool, the `outputObjects` set, the
`def.Imports` map and the `def.Services` list. -/
structure PState where
  objects : List String := []
  defObjects : List Object := []
  outputObjects : List String := []
  imports : List (String × String) := []
  services : List Service := []

/-- Go map write: replace the entry for the key or append. -/
def insertAssoc (l : List (String × String)) (k v : String) :
    List (String × String) :=
  if l.any (·.1 = k) then l.map fun p => if p.1 = k then (k, v) else p
  else l ++ [(k, v)]

/-- Go set insert on a map-of-empty-struct. -/
def insertSet (l : List String) (s : String) : List String :=
  if l.contains s then l else l ++ [s]

/-- The Go `isInSlice` helper. -/
def isInSlice (slice : List String) (s : String) : Bool :=
  slice.contains s

/-- `commentForType`: look up a type's doc comment in the doc index. -/
def lookupStr (l : List (String × String)) (k : String) : String :=
  ((l.find? (·.1 = k)).map (·.2)).getD ""

/-- Parsed-tag lookup, `f.ParsedTags["json"]`. -/
def tagLookup (tags : List (String × FieldTag)) (k : String) :
    Option FieldTag :=
  (tags.find? (·.1 = k)).map (·.2)

/-- The tail of `parseTypeDecl` (source lines computing `TypeName`
through the cross-language hint switch): resolver side effects on the
imports map, identity fields, and the primitive-hint switch. -/
def classifyTail (pkg : PkgInfo) (originalTyp : TypeExpr) (t : OtoType)
    (st : PState) : OtoType × PState :=
  let (disp, effs) := typeStringRes pkg.name originalTyp
  let t := { t with TypeName := disp }
  let st := { st with
    imports := effs.foldl (fun im pr => insertAssoc im pr.1 pr.2) st.imports }
  let t :=
    match effs.getLast? with
    | some pr => { t with Package := pr.1 }
    | none => t
  let pkgPath :=
    match effs.getLast? with
    | some pr => pr.1
    | none => pkg.path
  let t := { t with ObjectName := typeStringEmpty originalTyp }
  let t := { t with ObjectNameLowerCamel := camelizeDown t.ObjectName }
  let t := { t with TypeID := pkgPath ++ "." ++ t.ObjectName }
  let t := { t with CleanObjectName := dropStar t.ObjectName }
  let t := { t with TSType := t.CleanObjectName, JSType := t.CleanObjectName,
                    SwiftType := t.CleanObjectName }
  let t :=
    if t.IsObject then { t with JSType := "object" }
    else if t.IsMap then { t with JSType := "object" }
    else
      match t.UnderlyingTypeName with
      | "interface\x7b\x7d" =>
        { t with JSType := "any", SwiftType := "Any", TSType := "object" }
      | "map[string]interface\x7b\x7d" =>
        { t with JSType := "object", TSType := "object", SwiftType := "Any" }
      | "string" =>
        { t with JSType := "string", SwiftType := "String", TSType := "string" }
      | "bool" =>
        { t with JSType := "boolean", SwiftType := "Bool", TSType := "boolean" }
      | "int" | "int16" | "int32" | "int64"
      | "uint" | "uint16" | "uint32" | "uint64"
      | "float32" | "float64" =>
        { t with JSType := "number", SwiftType := "Double", TSType := "number" }
      | _ => t
  (t, st)

/-! ## parseTypeDecl / parseObject / parseField

The Go functions are mutually recursive through the type graph; the
recursion is cycle-guarded by the `objects` registration set. The
embedding makes them total with a fuel parameter that strictly
decreases on every call; with enough fuel this changes nothing. -/

mutual

/-- `Parser.parseTypeDecl`: classify one type handle, recursively
registering any named struct types it mentions. The named-type and map
branches (source lines 475 to 506) are split out as `branchesStep`;
the slice and pointer unwrapping, the nested-struct rejection and the
`classifyTail` chunk stay here. -/
def parseTypeDecl (env : Env) (pkg : PkgInfo) :
    Nat → TypeExpr → PState → Except String (OtoType × PState)
  | 0, _, _ => .error "out of fuel"
  | fuel + 1, v, st => do
    let t : OtoType := {}
    let (typ, t) :=
      match v with
      | .slice e => (e, { t with Multiple := true })
      | _ => (v, t)
    let originalTyp := typ
    let typ :=
      match typ with
      | .pointer e => e
      | _ => typ
    let (t, st) ← branchesStep env pkg fuel typ t st
    match typ with
    | .structT _ =>
      .error "nested structs not supported (create another type instead)"
    | _ => pure (classifyTail pkg originalTyp t st)

/-- The named-record branch, the map branch and the `time.Time` /
underlying-kind assignment of `parseTypeDecl`, operating on the
unwrapped type handle. -/
def branchesStep (env : Env) (pkg : PkgInfo) :
    Nat → TypeExpr → OtoType → PState → Except String (OtoType × PState)
  | 0, _, _, _ => .error "out of fuel"
  | fuel + 1, typ, t, st => do
    let (t, st) ←
      match typ with
      | .named p pn n =>
        if typStr (.named p pn n) = "time.Time" then pure (t, st)
        else
          match envLookup env (p ++ "." ++ n) with
          | some (.structU fields) => do
            let st ← parseObject env pkg fuel p pn n fields st
            pure ({ t with IsObject := true }, st)
          | _ => pure (t, st)
      | _ => pure (t, st)
    let (t, st) ←
      match typ with
      | .mapT k vv => do
        let t := { t with IsMap := true }
        let st ←
          match k with
          | .named p pn n =>
            match envLookup env (p ++ "." ++ n) with
            | some (.structU fields) => parseObject env pkg fuel p pn n fields st
            | _ => pure st
          | _ => pure st
        let st ←
          match vv with
          | .named p pn n =>
            match envLookup env (p ++ "." ++ n) with
            | some (.structU fields) => parseObject env pkg fuel p pn n fields st
            | _ => pure st
          | _ => pure st
        pure (t, st)
      | _ => pure (t, st)
    let t :=
      if typStr typ = "time.Time" then
        -- time.Time marshals itself to string
        { t with Package := "", UnderlyingTypeName := "string" }
      else
        { t with UnderlyingTypeName :=
            dropStar (typeStringEmpty (underlyingExpr env typ)) }
    pure (t, st)

/-- `Parser.parseObject`: parse a named struct type and add it to the
Definition, registering its name before its fields are read. -/
def parseObject (env : Env) (pkg : PkgInfo) :
    Nat → String → String → String → List FieldDecl → PState →
    Except String PState
  | 0, _, _, _, _, _ => .error "out of fuel"
  | fuel + 1, opkgPath, opkgName, name, fields, st =>
    if name ∈ st.objects then pure st
    else do
      let obj : Object := {}
      let obj := { obj with Name := name }
      let obj := { obj with Comment := lookupStr pkg.typeDocs name }
      let r := extractCommentMetadata obj.Comment
      let obj := { obj with Metadata := r.1, Comment := r.2.1 }
      if name ∈ st.objects then pure st
      else do
        let obj :=
          if opkgName ≠ pkg.name then
            { obj with Imported := true, Package := opkgPath }
          else obj
        let obj := { obj with TypeID := opkgPath ++ "." ++ name }
        let obj := { obj with Fields := [] }
        let st := { st with objects := st.objects ++ [name] }
        let (flds, st) ← parseObjectFields env pkg fuel name fields st
        let obj := { obj with Fields := flds }
        pure { st with defObjects := st.defObjects ++ [obj] }

/-- The field loop of `parseObject`: skip non-exported fields, parse the
rest, and emit the ones that are not tag-skipped, in order. -/
def parseObjectFields (env : Env) (pkg : PkgInfo) :
    Nat → String → List FieldDecl → PState →
    Except String (List Field × PState)
  | 0, _, _, _ => .error "out of fuel"
  | _ + 1, _, [], st => pure ([], st)
  | fuel + 1, objName, f :: rest, st =>
    if ¬ f.exported then parseObjectFields env pkg fuel objName rest st
    else do
      let (fld, st) ← parseField env pkg fuel objName f st
      let (flds, st) ← parseObjectFields env pkg fuel objName rest st
      if fld.Skip then pure (flds, st) else pure (fld :: flds, st)

/-- `Parser.parseField`: parse one struct field; a `json:"-"` tag marks
it skipped and its type is never classified. -/
def parseField (env : Env) (pkg : PkgInfo) :
    Nat → String → FieldDecl → PState → Except String (Field × PState)
  | 0, _, _, _ => .error "out of fuel"
  | fuel + 1, _, f, st => do
    let fld : Field := {}
    let fld := { fld with Name := f.name, NameJSON := f.name }
    let fld := { fld with NameLowerCamel := camelizeDown f.name }
    let fld := { fld with Tag := f.rawTag }
    match f.tags with
    | .error _ => .error "parse field tag"
    | .ok tags => do
      let fld := { fld with ParsedTags := tags }
      let fld :=
        match tagLookup tags "json" with
        | some jsonTag =>
          let fld := if jsonTag.Value = "-" then { fld with Skip := true } else fld
          let fld :=
            if jsonTag.Value ≠ "" then
              { fld with NameLowerCamel := jsonTag.Value, NameJSON := jsonTag.Value }
            else fld
          if jsonTag.Options.contains "omitempty" then
            { fld with OmitEmpty := true }
          else fld
        | none => fld
      let fld := { fld with Comment := f.doc }
      let fld := { fld with Metadata := [] }
      if ¬ f.exported then .error (f.name ++ " must be exported")
      else do
        let r := extractCommentMetadata fld.Comment
        let fld := { fld with Metadata := r.1, Comment := r.2.1 }
        let fld :=
          match metaLookup fld.Metadata "example" with
          | some ex => { fld with Example := some ex }
          | none => fld
        if fld.Skip then pure (fld, st)
        else do
          let (t, st) ← parseTypeDecl env pkg fuel f.typ st
          pure ({ fld with type := t }, st)

end

/-! ## parseMethod / parseService / Parse pipeline -/

/-- A method on an interface as reported by the Type Oracle, with its
Documentation Index comment. -/
structure MethodDecl where
  name : String
  doc : String := ""
  params : List TypeExpr := []
  results : List TypeExpr := []

/-- A top-level interface declaration. -/
structure IfaceDecl where
  name : String
  methods : List MethodDecl := []

/-- `Parser.parseMethod`: validate the signature shape and classify the
request (last parameter) and response (first result) types. -/
def parseMethod (env : Env) (pkg : PkgInfo) (fuel : Nat)
    (m : MethodDecl) (st : PState) : Except String (Method × PState) := do
  let mm : Method := {}
  let mm := { mm with Name := m.name }
  let mm := { mm with NameLowerCamel := camelizeDown m.name }
  let mm := { mm with Comment := m.doc }
  let r := extractCommentMetadata mm.Comment
  let mm := { mm with Metadata := r.1, Comment := r.2.1 }
  if m.params.length = 2 ∧ typStr (m.params.headD (.basic "")) ≠ "context.Context" then
    .error "invalid method signature: expected first argument of two to be context.Context"
  else if m.params.length < 1 ∨ m.params.length > 2 then
    .error "invalid method signature: expected arguments (MethodRequest) or (context.Context, MethodRequest)"
  else
    match parseTypeDecl env pkg fuel (m.params.getLastD (.basic "")) st with
    | .error e => .error ("parse input object type: " ++ e)
    | .ok (inT, st) => do
      let mm := { mm with InputObject := inT }
      if m.results.length = 2 ∧ typStr (m.results.getD 1 (.basic "")) ≠ "error" then
        .error "invalid method signature: expected second return value of two to be error"
      else if m.results.length < 1 ∨ m.results.length > 2 then
        .error "invalid method signature: expected to return MethodResponse or (MethodResponse, error)"
      else
        match parseTypeDecl env pkg fuel (m.results.headD (.basic "")) st with
        | .error e => .error ("parse output object type: " ++ e)
        | .ok (outT, st) => do
          let mm := { mm with OutputObject := outT }
          let st := { st with outputObjects := insertSet st.outputObjects outT.TypeName }
          pure (mm, st)

/-- The method loop of `parseService`. -/
def parseServiceMethods (env : Env) (pkg : PkgInfo) (fuel : Nat) :
    List MethodDecl → PState → Except String (List Method × PState)
  | [], st => pure ([], st)
  | m :: rest, st => do
    let (mm, st) ← parseMethod env pkg fuel m st
    let (ms, st) ← parseServiceMethods env pkg fuel rest st
    pure (mm :: ms, st)

/-- `Parser.parseService`: build one Service from an interface. -/
def parseService (env : Env) (pkg : PkgInfo) (fuel : Nat)
    (iface : IfaceDecl) (st : PState) : Except String (Service × PState) := do
  let s : Service := {}
  let s := { s with Name := iface.name }
  let s := { s with Comment := lookupStr pkg.typeDocs iface.name }
  let r := extractCommentMetadata s.Comment
  let s := { s with Metadata := r.1, Comment := r.2.1 }
  let (ms, st) ← parseServiceMethods env pkg fuel iface.methods st
  pure ({ s with Methods := ms }, st)

/-- The scope loop of `Parser.Parse`: apply the include list, parse each
interface, and either record an excluded service's method TypeIDs or
append the service, accumulating `excludedObjectsTypeIDs`. -/
def parseScope (env : Env) (pkg : PkgInfo) (fuel : Nat)
    (includeInterfaces excludeInterfaces : List String) :
    List IfaceDecl → PState → List String →
    Except String (PState × List String)
  | [], st, ex => pure (st, ex)
  | i :: rest, st, ex =>
    if includeInterfaces ≠ [] ∧ ¬ isInSlice includeInterfaces i.name then
      parseScope env pkg fuel includeInterfaces excludeInterfaces rest st ex
    else do
      let (s, st) ← parseService env pkg fuel i st
      if isInSlice excludeInterfaces i.name then
        let ex := ex ++ s.Methods.flatMap fun m =>
          [m.InputObject.TypeID, m.OutputObject.TypeID]
        parseScope env pkg fuel includeInterfaces excludeInterfaces rest st ex
      else
        parseScope env pkg fuel includeInterfaces excludeInterfaces rest
          { st with services := st.services ++ [s] } ex

/-- The synthetic diagnostic field appended to response objects. -/
def errorField : Field :=
  { OmitEmpty := true
    Name := "Error"
    NameLowerCamel := "error"
    Comment := "Error is string explaining what went wrong. Empty if everything was fine."
    type := { TypeName := "string", JSType := "string", SwiftType := "String",
              TSType := "string" }
    Metadata := []
    Example := some (.str "something went wrong") }

/-- `Definition.Object` lookup followed by the in-place field append of
`addOutputFields`: the first object whose Name matches gains the error
field; a miss leaves the list unchanged. -/
def appendErrorField : List Object → String → List Object
  | [], _ => []
  | o :: rest, n =>
    if o.Name = n then { o with Fields := o.Fields ++ [errorField] } :: rest
    else o :: appendErrorField rest n

/-- `Parser.addOutputFields`: for every recorded output object name,
append the error field to the matching object (silently skipping
lookup misses). -/
def addOutputFields (names : List String) (objs : List Object) : List Object :=
  names.foldl appendErrorField objs

/-- The whole-list exclusion filter of `Parser.Parse`. -/
def pruneObjects (ex : List String) (objs : List Object) : List Object :=
  objs.filter fun o => ¬ isInSlice ex o.TypeID

/-- `Parser.Parse` after package loading: walk the scope, prune excluded
objects, sort services and objects by name, and inject output fields. -/
def Parse (env : Env) (pkg : PkgInfo) (fuel : Nat) (ifaces : List IfaceDecl)
    (includeInterfaces excludeInterfaces : List String) :
    Except String Definition := do
  let st : PState := {}
  let (st, excludedObjectsTypeIDs) ←
    parseScope env pkg fuel includeInterfaces excludeInterfaces ifaces st []
  let nonExcludedObjects := pruneObjects excludedObjectsTypeIDs st.defObjects
  let services := List.insertionSort (fun a b => strLeB a.Name b.Name = true) st.services
  let objects := List.insertionSort (fun a b => strLeB a.Name b.Name = true) nonExcludedObjects
  let objects := addOutputFields st.outputObjects objects
  pure { PackageName := pkg.name, Services := services, Objects := objects,
         Imports := st.imports }

/-! ## Spec-side helper definitions and concrete example inputs -/

/-- Stated from the spec's words, for comparison with
`extractCommentMetadata`: the non-metadata, non-blank lines of a
comment, trimmed, in their original order. -/
def remainderLines (comment : String) : List String :=
  (strSplitOn comment "\n").filterMap fun l =>
    let t := goTrim l
    if metadataCommentRegexMatch t ∨ t = "" then none else some t

/-- State-extension invariant for the traversal: the registration set
only grows, and the object pool only gains objects whose names are
pairwise distinct, registered, and not previously registered. -/
def StExtends (st st' : PState) : Prop :=
  st.objects <+: st'.objects ∧
  st.outputObjects = st'.outputObjects ∧
  ∃ new, st'.defObjects = st.defObjects ++ new ∧
    (new.map Object.Name).Nodup ∧
    ∀ nm ∈ new.map Object.Name, nm ∈ st'.objects ∧ nm ∉ st.objects

/-- A sound object pool: object names are pairwise distinct and all
registered. -/
def PoolOk (st : PState) : Prop :=
  (st.defObjects.map Object.Name).Nodup ∧
  ∀ nm ∈ st.defObjects.map Object.Name, nm ∈ st.objects

/-- The package of the repository's own `strange_types.go` test data. -/
def plPkg : PkgInfo := { name := "pleasantries", path := "pl" }

/-- Handle for `DoSomethingStrangeRequest`. -/
def reqRef : TypeExpr := .named "pl" "pleasantries" "DoSomethingStrangeRequest"

/-- Handle for `DoSomethingStrangeResponse`. -/
def respRef : TypeExpr := .named "pl" "pleasantries" "DoSomethingStrangeResponse"

/-- Handle for the self-referential `InfiniteLoop` record. -/
def loopRef : TypeExpr := .named "pl" "pleasantries" "InfiniteLoop"

/-- Handle for `time.Time`. -/
def timeRef : TypeExpr := .named "time" "time" "Time"

/-- The `strange_types.go` declarations as Type Oracle data. -/
def testEnv : Env :=
  [ ("pl.DoSomethingStrangeRequest", .structU
      [ { name := "Anything", typ := .basic "interface\x7b\x7d" }
      , { name := "Alias", typ := .named "pl" "pleasantries" "Alias" }
      , { name := "Private", rawTag := "json:\"-\""
        , tags := .ok [("json", { Value := "-" })], typ := .basic "int" }
      , { name := "Time", typ := timeRef }
      , { name := "OptionalTime", rawTag := "json:\",omitempty\""
        , tags := .ok [("json", { Value := "", Options := ["omitempty"] })]
        , typ := .pointer timeRef }
      , { name := "InfiniteLoop", typ := .pointer loopRef } ])
  , ("pl.InfiniteLoop", .structU
      [ { name := "InfiniteLoop", typ := .pointer loopRef } ])
  , ("pl.DoSomethingStrangeResponse", .structU
      [ { name := "Value", typ := .basic "interface\x7b\x7d" }
      , { name := "Size", typ := .basic "int" } ])
  , ("pl.Alias", .nonStructU "string")
  , ("time.Time", .structU
      [ { name := "wall", exported := false, typ := .basic "uint64" } ]) ]

/-- The `StrangeTypesService` interface of the test data. -/
def testIfaces : List IfaceDecl :=
  [ { name := "StrangeTypesService"
    , methods := [ { name := "DoSomethingStrange", params := [reqRef]
                   , results := [respRef] } ] } ]

/-- Exclusion scenario: two services share a request object; service A
is excluded, service B is retained and still references the shared
object. -/
def exclEnv : Env :=
  [ ("pl.SharedRequest", .structU [ { name := "Name", typ := .basic "string" } ])
  , ("pl.AResponse", .structU [ { name := "A", typ := .basic "string" } ])
  , ("pl.BResponse", .structU [ { name := "B", typ := .basic "string" } ]) ]

/-- Handle for `SharedRequest`. -/
def sharedRef : TypeExpr := .named "pl" "pleasantries" "SharedRequest"

/-- Handle for `AResponse`. -/
def aRespRef : TypeExpr := .named "pl" "pleasantries" "AResponse"

/-- Handle for `BResponse`. -/
def bRespRef : TypeExpr := .named "pl" "pleasantries" "BResponse"

/-- The excluded service's method. -/
def mDoA : MethodDecl := { name := "DoA", params := [sharedRef], results := [aRespRef] }

/-- The retained service's method, whose request is the shared object. -/
def mDoB : MethodDecl := { name := "DoB", params := [sharedRef], results := [bRespRef] }

/-- The interface that will be excluded. -/
def ifaceA : IfaceDecl := { name := "AService", methods := [mDoA] }

/-- The interface that is retained. -/
def ifaceB : IfaceDecl := { name := "BService", methods := [mDoB] }

/-- The two interfaces of the exclusion scenario. -/
def exclIfaces : List IfaceDecl := [ifaceA, ifaceB]

/-- The classified `string` type of the scenario's fields. -/
def tString : OtoType :=
  { TypeID := "pl.string", TypeName := "string", ObjectName := "string",
    CleanObjectName := "string", UnderlyingTypeName := "string",
    ObjectNameLowerCamel := "string", JSType := "string", TSType := "string",
    SwiftType := "String" }

/-- A parsed string-typed field of the scenario. -/
def strField (nm lc : String) : Field :=
  { Name := nm, NameLowerCamel := lc, NameJSON := nm, type := tString }

/-- A parsed object of the scenario. -/
def objOf (nm : String) (fs : List Field) : Object :=
  { TypeID := "pl." ++ nm, Name := nm, Fields := fs }

/-- The classified record type named `nm` of the scenario. -/
def tObj (nm lc under : String) : OtoType :=
  { TypeID := "pl." ++ nm, TypeName := nm, ObjectName := nm,
    CleanObjectName := nm, UnderlyingTypeName := under,
    ObjectNameLowerCamel := lc, IsObject := true, JSType := "object",
    TSType := nm, SwiftType := nm }

/-- Classified `SharedRequest`. -/
def tSharedV : OtoType := tObj "SharedRequest" "sharedRequest" "struct\x7bName string\x7d"

/-- Classified `AResponse`. -/
def tAV : OtoType := tObj "AResponse" "aResponse" "struct\x7bA string\x7d"

/-- Classified `BResponse`. -/
def tBV : OtoType := tObj "BResponse" "bResponse" "struct\x7bB string\x7d"

/-- Pooled `SharedRequest` object. -/
def oSharedV : Object := objOf "SharedRequest" [strField "Name" "name"]

/-- Pooled `AResponse` object. -/
def oAV : Object := objOf "AResponse" [strField "A" "a"]

/-- Pooled `BResponse` object. -/
def oBV : Object := objOf "BResponse" [strField "B" "b"]

/-- Traversal state after classifying `SharedRequest`. -/
def stT1V : PState := { objects := ["SharedRequest"], defObjects := [oSharedV] }

/-- Traversal state after also classifying `AResponse`. -/
def stT2V : PState :=
  { objects := ["SharedRequest", "AResponse"], defObjects := [oSharedV, oAV] }

/-- Traversal state after method `DoA` (its output name recorded). -/
def stM1V : PState :=
  { objects := ["SharedRequest", "AResponse"], defObjects := [oSharedV, oAV],
    outputObjects := ["AResponse"] }

/-- Traversal state after also classifying `BResponse`. -/
def stT4V : PState :=
  { objects := ["SharedRequest", "AResponse", "BResponse"],
    defObjects := [oSharedV, oAV, oBV], outputObjects := ["AResponse"] }

/-- Traversal state after method `DoB`. -/
def stM2V : PState :=
  { objects := ["SharedRequest", "AResponse", "BResponse"],
    defObjects := [oSharedV, oAV, oBV],
    outputObjects := ["AResponse", "BResponse"] }

/-- The parsed method `DoA`. -/
def mAV : Method :=
  { Name := "DoA", NameLowerCamel := "doA", InputObject := tSharedV,
    OutputObject := tAV }

/-- The parsed method `DoB`. -/
def mBV : Method :=
  { Name := "DoB", NameLowerCamel := "doB", InputObject := tSharedV,
    OutputObject := tBV }

/-- The parsed (and discarded) service `AService`. -/
def svcAV : Service := { Name := "AService", Methods := [mAV] }

/-- The parsed service `BService`. -/
def svcBV : Service := { Name := "BService", Methods := [mBV] }

/-- Traversal state after the whole scope walk. -/
def stScopeV : PState :=
  { objects := ["SharedRequest", "AResponse", "BResponse"],
    defObjects := [oSharedV, oAV, oBV],
    outputObjects := ["AResponse", "BResponse"], services := [svcBV] }

/-- The Definition the exclusion scenario produces. -/
def dExclV : Definition :=
  { PackageName := "pleasantries", Services := [svcBV],
    Objects := [{ oBV with Fields := [strField "B" "b", errorField] }] }

/-- A skip-tagged field whose type is an anonymous struct, which the
Type Classifier would reject if it were ever consulted. -/
def skippedBadField : FieldDecl :=
  { name := "Bad", rawTag := "json:\"-\""
  , tags := .ok [("json", { Value := "-" })]
  , typ := .structT "struct\x7bx int\x7d" }

/-- Classified `*InfiniteLoop`, the pointer type of the self-referential
field. -/
def tLoopPtrV : OtoType :=
  { TypeID := "pl.*InfiniteLoop", TypeName := "*InfiniteLoop",
    ObjectName := "*InfiniteLoop", CleanObjectName := "InfiniteLoop",
    UnderlyingTypeName := "struct\x7bInfiniteLoop *InfiniteLoop\x7d",
    ObjectNameLowerCamel := "*InfiniteLoop", IsObject := true,
    JSType := "object", TSType := "InfiniteLoop", SwiftType := "InfiniteLoop" }

/-- Classified `InfiniteLoop`. -/
def tLoopV : OtoType :=
  { TypeID := "pl.InfiniteLoop", TypeName := "InfiniteLoop",
    ObjectName := "InfiniteLoop", CleanObjectName := "InfiniteLoop",
    UnderlyingTypeName := "struct\x7bInfiniteLoop *InfiniteLoop\x7d",
    ObjectNameLowerCamel := "infiniteLoop", IsObject := true,
    JSType := "object", TSType := "InfiniteLoop", SwiftType := "InfiniteLoop" }

/-- Pooled `InfiniteLoop` object: one self-referential optional field. -/
def oLoopV : Object :=
  { TypeID := "pl.InfiniteLoop", Name := "InfiniteLoop",
    Fields := [{ Name := "InfiniteLoop", NameLowerCamel := "infiniteLoop",
                 NameJSON := "InfiniteLoop", type := tLoopPtrV }] }

/-- Traversal state after classifying `InfiniteLoop`. -/
def stLoopV : PState := { objects := ["InfiniteLoop"], defObjects := [oLoopV] }

/-! ## Decidable equality for evaluation of concrete scenarios -/

mutual
def Jval.deq : (a b : Jval) → Decidable (a = b)
  | .null, .null => isTrue rfl
  | .null, .bool _ => isFalse (fun h => Jval.noConfusion h)
  | .bool a, .bool b =>
    if h : a = b then isTrue (by rw [h]) else isFalse (fun he => h (by cases he; rfl))
  | .num a, .num b =>
    if h : a = b then isTrue (by rw [h]) else isFalse (fun he => h (by cases he; rfl))
  | .str a, .str b =>
    if h : a = b then isTrue (by rw [h]) else isFalse (fun he => h (by cases he; rfl))
  | .arr xs, .arr ys =>
    match Jval.deqList xs ys with
    | isTrue h => isTrue (by rw [h])
    | isFalse h => isFalse (fun he => h (by cases he; rfl))
  | .obj xs, .obj ys =>
    match Jval.deqPairList xs ys with
    | isTrue h => isTrue (by rw [h])
    | isFalse h => isFalse (fun he => h (by cases he; rfl))
  | .null, .num _ => isFalse (fun h => Jval.noConfusion h)
  | .null, .str _ => isFalse (fun h => Jval.noConfusion h)
  | .null, .arr _ => isFalse (fun h => Jval.noConfusion h)
  | .null, .obj _ => isFalse (fun h => Jval.noConfusion h)
  | .bool _, .null => isFalse (fun h => Jval.noConfusion h)
  | .bool _, .num _ => isFalse (fun h => Jval.noConfusion h)
  | .bool _, .str _ => isFalse (fun h => Jval.noConfusion h)
  | .bool _, .arr _ => isFalse (fun h => Jval.noConfusion h)
  | .bool _, .obj _ => isFalse (fun h => Jval.noConfusion h)
  | .num _, .null => isFalse (fun h => Jval.noConfusion h)
  | .num _, .bool _ => isFalse (fun h => Jval.noConfusion h)
  | .num _, .str _ => isFalse (fun h => Jval.noConfusion h)
  | .num _, .arr _ => isFalse (fun h => Jval.noConfusion h)
  | .num _, .obj _ => isFalse (fun h => Jval.noConfusion h)
  | .str _, .null => isFalse (fun h => Jval.noConfusion h)
  | .str _, .bool _ => isFalse (fun h => Jval.noConfusion h)
  | .str _, .num _ => isFalse (fun h => Jval.noConfusion h)
  | .str _, .arr _ => isFalse (fun h => Jval.noConfusion h)
  | .str _, .obj _ => isFalse (fun h => Jval.noConfusion h)
  | .arr _, .null => isFalse (fun h => Jval.noConfusion h)
  | .arr _, .bool _ => isFalse (fun h => Jval.noConfusion h)
  | .arr _, .num _ => isFalse (fun h => Jval.noConfusion h)
  | .arr _, .str _ => isFalse (fun h => Jval.noConfusion h)
  | .arr _, .obj _ => isFalse (fun h => Jval.noConfusion h)
  | .obj _, .null => isFalse (fun h => Jval.noConfusion h)
  | .obj _, .bool _ => isFalse (fun h => Jval.noConfusion h)
  | .obj _, .num _ => isFalse (fun h => Jval.noConfusion h)
  | .obj _, .str _ => isFalse (fun h => Jval.noConfusion h)
  | .obj _, .arr _ => isFalse (fun h => Jval.noConfusion h)

def Jval.deqList : (a b : List Jval) → Decidable (a = b)
  | [], [] => isTrue rfl
  | [], _ :: _ => isFalse (fun h => List.noConfusion h)
  | _ :: _, [] => isFalse (fun h => List.noConfusion h)
  | x :: xs, y :: ys =>
    match Jval.deq x y with
    | isTrue h1 =>
      match Jval.deqList xs ys with
      | isTrue h2 => isTrue (by rw [h1, h2])
      | isFalse h2 => isFalse (fun he => h2 (by cases he; rfl))
    | isFalse h1 => isFalse (fun he => h1 (by cases he; rfl))

def Jval.deqPairList : (a b : List (String × Jval)) → Decidable (a = b)
  | [], [] => isTrue rfl
  | [], _ :: _ => isFalse (fun h => List.noConfusion h)
  | _ :: _, [] => isFalse (fun h => List.noConfusion h)
  | (k1, v1) :: xs, (k2, v2) :: ys =>
    if hk : k1 = k2 then
      match Jval.deq v1 v2 with
      | isTrue h1 =>
        match Jval.deqPairList xs ys with
        | isTrue h2 => isTrue (by rw [hk, h1, h2])
        | isFalse h2 => isFalse (fun he => h2 (by cases he; rfl))
      | isFalse h1 => isFalse (fun he => h1 (by cases he; rfl))
    else isFalse (fun he => hk (by cases he; rfl))
end

instance : DecidableEq Jval := Jval.deq

deriving instance DecidableEq for Field
deriving instance DecidableEq for Object
deriving instance DecidableEq for Method
deriving instance DecidableEq for Service
deriving instance DecidableEq for PState
deriving instance DecidableEq for Definition
deriving instance DecidableEq for Except


/-! ## Infrastructure lemmas -/

set_option maxHeartbeats 1000000

theorem ok_bind {eps alp bet : Type} (a : alp) (f : alp → Except eps bet) :
    (Except.ok a >>= f : Except eps bet) = f a := rfl

theorem error_bind {eps alp bet : Type} (e : eps) (f : alp → Except eps bet) :
    (Except.error e >>= f : Except eps bet) = Except.error e := rfl

theorem except_bind_ok {eps alp bet : Type} {m : Except eps alp}
    {f : alp → Except eps bet} {b : bet} :
    m >>= f = .ok b ↔ ∃ a, m = .ok a ∧ f a = .ok b := by
  cases m <;> simp [ok_bind, error_bind]

/-! ## C8: the opaque timestamp special case -/

/-- C8: for a field or parameter whose (unwrapped) type is `time.Time`,
classification records the underlying kind as "string" and performs no
structural decomposition: no Object is created and the registration set
is untouched. The environment is universally quantified — even an
oracle that reports `time.Time` as a named record with fields (as the
real one does) triggers no recursion, because the special case is
checked before generic named-record detection. Both the bare and the
pointer-wrapped forms are covered. -/
theorem parseTypeDecl_time_special (env : Env) (pkg : PkgInfo) (fuel : Nat)
    (st : PState) :
    (∃ t st', parseTypeDecl env pkg (fuel + 2) timeRef st = .ok (t, st') ∧
      t.UnderlyingTypeName = "string" ∧ t.IsObject = false ∧
      st'.objects = st.objects ∧ st'.defObjects = st.defObjects) ∧
    (∃ t st', parseTypeDecl env pkg (fuel + 2) (.pointer timeRef) st = .ok (t, st') ∧
      t.UnderlyingTypeName = "string" ∧ t.IsObject = false ∧
      st'.objects = st.objects ∧ st'.defObjects = st.defObjects) := by
  constructor
  · simp only [parseTypeDecl, branchesStep, timeRef]
    by_cases h : ("time" : String) = pkg.name
    · simp [typStr, typeStringRes, typeStringEmpty, classifyTail, pure, Except.pure,
            ok_bind, ← h]
      exact ⟨_, _, ⟨rfl, rfl⟩, rfl, rfl, rfl, rfl⟩
    · simp [typStr, typeStringRes, h, typeStringEmpty, classifyTail, pure, Except.pure,
            ok_bind]
      exact ⟨_, _, ⟨rfl, rfl⟩, rfl, rfl, rfl, rfl⟩
  · simp only [parseTypeDecl, branchesStep, timeRef]
    by_cases h : ("time" : String) = pkg.name
    · simp [typStr, typeStringRes, typeStringEmpty, classifyTail, pure, Except.pure,
            ok_bind, ← h]
      exact ⟨_, _, ⟨rfl, rfl⟩, rfl, rfl, rfl, rfl⟩
    · simp [typStr, typeStringRes, h, typeStringEmpty, classifyTail, pure, Except.pure,
            ok_bind]
      exact ⟨_, _, ⟨rfl, rfl⟩, rfl, rfl, rfl, rfl⟩

/-- Witness for C8 at a concrete input: the test environment, which
declares `time.Time` as a named record. -/
theorem parseTypeDecl_time_special_witness :
    ∃ t st', parseTypeDecl testEnv plPkg 5 timeRef {} = .ok (t, st') ∧
      t.UnderlyingTypeName = "string" ∧ t.IsObject = false ∧
      st'.objects = PState.objects {} ∧ st'.defObjects = PState.defObjects {} :=
  (parseTypeDecl_time_special testEnv plPkg 3 {}).1

/-! ## C1: method signature validation -/

/-- C1: a method accepts exactly one or two parameters and one or two
results; with two parameters the first must be `context.Context`, with
two results the second must be `error`; any other shape fails with an
invalid-signature error. On success the request type is classified from
the last parameter and the response type from the first result. -/
theorem parseMethod_signature (env : Env) (pkg : PkgInfo) (fuel : Nat)
    (m : MethodDecl) (st : PState) :
    ((m.params.length = 0 ∨ 3 ≤ m.params.length) →
      parseMethod env pkg fuel m st =
        .error "invalid method signature: expected arguments (MethodRequest) or (context.Context, MethodRequest)") ∧
    ((m.params.length = 2 ∧ typStr (m.params.headD (.basic "")) ≠ "context.Context") →
      parseMethod env pkg fuel m st =
        .error "invalid method signature: expected first argument of two to be context.Context") ∧
    (∀ t1 st1,
      (m.params.length = 1 ∨
        (m.params.length = 2 ∧ typStr (m.params.headD (.basic "")) = "context.Context")) →
      parseTypeDecl env pkg fuel (m.params.getLastD (.basic "")) st = .ok (t1, st1) →
      (((m.results.length = 0 ∨ 3 ≤ m.results.length) →
        parseMethod env pkg fuel m st =
          .error "invalid method signature: expected to return MethodResponse or (MethodResponse, error)") ∧
       ((m.results.length = 2 ∧ typStr (m.results.getD 1 (.basic "")) ≠ "error") →
        parseMethod env pkg fuel m st =
          .error "invalid method signature: expected second return value of two to be error"))) ∧
    (∀ mm st', parseMethod env pkg fuel m st = .ok (mm, st') →
      (m.params.length = 1 ∨
        (m.params.length = 2 ∧ typStr (m.params.headD (.basic "")) = "context.Context")) ∧
      (m.results.length = 1 ∨
        (m.results.length = 2 ∧ typStr (m.results.getD 1 (.basic "")) = "error")) ∧
      ∃ st1 st2,
        parseTypeDecl env pkg fuel (m.params.getLastD (.basic "")) st = .ok (mm.InputObject, st1) ∧
        parseTypeDecl env pkg fuel (m.results.headD (.basic "")) st1 = .ok (mm.OutputObject, st2)) := by
  refine ⟨?_, ?_, ?_, ?_⟩
  · intro h
    have hc1 : ¬ (m.params.length = 2 ∧ typStr (m.params.headD (.basic "")) ≠ "context.Context") := by
      rintro ⟨h2, _⟩; omega
    have hc2 : m.params.length < 1 ∨ m.params.length > 2 := by omega
    simp only [parseMethod]
    rw [if_neg hc1, if_pos hc2]
  · rintro ⟨h2, hctx⟩
    simp only [parseMethod]
    rw [if_pos ⟨h2, hctx⟩]
  · intro t1 st1 hp hok
    have hc1 : ¬ (m.params.length = 2 ∧ typStr (m.params.headD (.basic "")) ≠ "context.Context") := by
      rintro ⟨h2, hne⟩
      rcases hp with h1 | ⟨_, hctx⟩
      · omega
      · exact hne hctx
    have hc2 : ¬ (m.params.length < 1 ∨ m.params.length > 2) := by
      rcases hp with h1 | ⟨h2, _⟩ <;> omega
    constructor
    · intro h
      have hc3 : ¬ (m.results.length = 2 ∧ typStr (m.results.getD 1 (.basic "")) ≠ "error") := by
        rintro ⟨h2, _⟩; omega
      have hc4 : m.results.length < 1 ∨ m.results.length > 2 := by omega
      simp only [parseMethod]
      rw [if_neg hc1, if_neg hc2, hok]
      simp only []
      rw [if_neg hc3, if_pos hc4]
    · rintro ⟨h2, herr⟩
      simp only [parseMethod]
      rw [if_neg hc1, if_neg hc2, hok]
      simp only []
      rw [if_pos ⟨h2, herr⟩]
  · intro mm st' h
    simp only [parseMethod] at h
    split at h
    · exact absurd h (by simp)
    next hc1 =>
      split at h
      · exact absurd h (by simp)
      next hc2 =>
        split at h
        · exact absurd h (by simp)
        next inT st1 heq1 =>
          split at h
          · exact absurd h (by simp)
          next hc3 =>
            split at h
            · exact absurd h (by simp)
            next hc4 =>
              split at h
              · exact absurd h (by simp)
              next outT st2 heq2 =>
                simp only [pure, Except.pure, Except.ok.injEq, Prod.mk.injEq] at h
                obtain ⟨hm, hs⟩ := h
                refine ⟨?_, ?_, st1, st2, ?_, ?_⟩
                · rcases (by omega : m.params.length = 1 ∨ m.params.length = 2) with h1 | h2
                  · exact .inl h1
                  · refine .inr ⟨h2, ?_⟩
                    by_contra hn
                    exact hc1 ⟨h2, hn⟩
                · rcases (by omega : m.results.length = 1 ∨ m.results.length = 2) with h1 | h2
                  · exact .inl h1
                  · refine .inr ⟨h2, ?_⟩
                    by_contra hn
                    exact hc3 ⟨h2, hn⟩
                · rw [← hm]
                  exact heq1
                · rw [← hm]
                  exact heq2

/-- Witness for C1: a three-parameter method fails with the
invalid-signature arity error. -/
theorem parseMethod_signature_witness :
    parseMethod testEnv plPkg 10
      { name := "Bad", params := [reqRef, reqRef, reqRef], results := [respRef] } {} =
      .error "invalid method signature: expected arguments (MethodRequest) or (context.Context, MethodRequest)" :=
  (parseMethod_signature testEnv plPkg 10
    { name := "Bad", params := [reqRef, reqRef, reqRef], results := [respRef] } {}).1
    (Or.inr (Nat.le_refl 3))

/-! ## C6: skip-tagged fields -/

/-- C6: a field whose json tag has primary value "-" is marked skip,
its type is never classified (the same state comes back untouched and
the conclusion holds for every environment and any field type,
including one the classifier would reject), and the field is absent
from the emitted field list (the field loop on `f :: rest` collapses to
the loop on `rest`). The last conjunct runs an object with a single
skip-tagged field of anonymous-struct type — a type that fails
classification — through `parseObject`: the build succeeds and the
emitted field list is empty. -/
theorem parseField_skip_tagged (env : Env) (pkg : PkgInfo) (fuel : Nat)
    (objName : String) (f : FieldDecl) (st : PState)
    (tags : List (String × FieldTag)) (jt : FieldTag)
    (htags : f.tags = .ok tags) (hjt : tagLookup tags "json" = some jt)
    (hdash : jt.Value = "-") (hexp : f.exported = true) :
    (∃ fld, parseField env pkg (fuel + 1) objName f st = .ok (fld, st) ∧
      fld.Skip = true) ∧
    (∀ rest, parseObjectFields env pkg (fuel + 2) objName (f :: rest) st =
      parseObjectFields env pkg (fuel + 1) objName rest st) ∧
    (∀ (env2 : Env) (fuel2 : Nat),
      parseObject env2 plPkg (fuel2 + 3) "pl" "pleasantries" "BadHolder"
        [skippedBadField] {} =
      .ok { objects := ["BadHolder"],
            defObjects := [{ TypeID := "pl.BadHolder", Name := "BadHolder" }] }) := by
  have hfld : ∃ fld, parseField env pkg (fuel + 1) objName f st = .ok (fld, st) ∧
      fld.Skip = true := by
    simp only [parseField, htags]
    rw [hjt]
    simp only [hdash, hexp]
    by_cases homit : "omitempty" ∈ jt.Options <;>
      cases hml : metaLookup (extractCommentMetadata f.doc).1 "example" <;>
        simp [homit, hml, pure, Except.pure]
  refine ⟨hfld, fun rest => ?_, fun env2 fuel2 => rfl⟩
  obtain ⟨fld, hok, hskip⟩ := hfld
  simp only [parseObjectFields, hexp]
  rw [hok]
  simp [hskip, ok_bind]

/-- Witness for C6 at a concrete skip-tagged field. -/
theorem parseField_skip_tagged_witness :
    ∃ fld, parseField testEnv plPkg 4 "BadHolder" skippedBadField {} =
      .ok (fld, ({} : PState)) ∧ fld.Skip = true :=
  (parseField_skip_tagged testEnv plPkg 3 "BadHolder" skippedBadField {}
    [("json", { Value := "-" })] { Value := "-" } rfl rfl rfl rfl).1

/-! ## C5: the TypeID identity -/

theorem strHasPre_false_dropStar {s : String} (h : strHasPre "*" s = false) :
    dropStar s = s := by
  simp [dropStar, h]

theorem classifyTail_identity (pkg : PkgInfo) (origT : TypeExpr) (t : OtoType)
    (st : PState) :
    ∃ p, (p = pkg.path ∨ p = (classifyTail pkg origT t st).1.Package) ∧
      (classifyTail pkg origT t st).1.TypeID =
        p ++ "." ++ (classifyTail pkg origT t st).1.ObjectName ∧
      (classifyTail pkg origT t st).1.CleanObjectName =
        dropStar (classifyTail pkg origT t st).1.ObjectName := by
  cases hE : (typeStringRes pkg.name origT).2.getLast? with
  | none =>
    simp only [classifyTail, hE]
    refine ⟨pkg.path, Or.inl rfl, ?_, ?_⟩ <;> (repeat' split) <;> simp
  | some pr =>
    simp only [classifyTail, hE]
    refine ⟨pr.1, ?_, ?_, ?_⟩ <;> (repeat' split) <;> simp

theorem parseTypeDecl_shape (env : Env) (pkg : PkgInfo) (fuel : Nat)
    (v : TypeExpr) (st : PState) (t : OtoType) (st' : PState)
    (h : parseTypeDecl env pkg fuel v st = .ok (t, st')) :
    ∃ origT tMid stMid, (t, st') = classifyTail pkg origT tMid stMid := by
  cases fuel with
  | zero => simp [parseTypeDecl] at h
  | succ n =>
    simp only [parseTypeDecl] at h
    rw [except_bind_ok] at h
    obtain ⟨⟨t1, st1⟩, _, h⟩ := h
    split at h
    · exact absurd h (by simp)
    · simp only [pure, Except.pure, Except.ok.injEq] at h
      exact ⟨_, _, _, h.symm⟩

/-- C5 counterexample: classifying the pointer type `*InfiniteLoop`
produces `TypeID = "pl.*InfiniteLoop"`, the package path joined to the
display name with its pointer marker — not to the clean (marker-free)
name, which is `"InfiniteLoop"`. -/
theorem parseTypeDecl_typeID_counterexample :
    (match parseTypeDecl testEnv plPkg 8 (.pointer loopRef) {} with
     | .ok (t, _) => (t.TypeID, t.CleanObjectName)
     | .error _ => ("", "")) = ("pl.*InfiniteLoop", "InfiniteLoop") ∧
    ("pl.*InfiniteLoop" : String) ≠ "pl" ++ "." ++ "InfiniteLoop" := by
  constructor
  · decide
  · decide

/-- C5 as amended: for every classified Type, TypeID is the owning
package path (the current package's path, or the resolved Package of a
cross-package type), a dot, and the display name `ObjectName` — which
retains the pointer marker. `CleanObjectName` is the display name with
the marker stripped, so for non-pointer display names TypeID does equal
path + "." + clean name. -/
theorem parseTypeDecl_typeID_amended (env : Env) (pkg : PkgInfo) (fuel : Nat)
    (v : TypeExpr) (st : PState) (t : OtoType) (st' : PState)
    (h : parseTypeDecl env pkg fuel v st = .ok (t, st')) :
    ∃ p, (p = pkg.path ∨ p = t.Package) ∧
      t.TypeID = p ++ "." ++ t.ObjectName ∧
      t.CleanObjectName = dropStar t.ObjectName ∧
      (t.IsOptional = false → t.TypeID = p ++ "." ++ t.CleanObjectName) := by
  obtain ⟨origT, tMid, stMid, hshape⟩ := parseTypeDecl_shape env pkg fuel v st t st' h
  have ht : t = (classifyTail pkg origT tMid stMid).1 :=
    congrArg Prod.fst hshape
  obtain ⟨p, hp, hid, hclean⟩ := classifyTail_identity pkg origT tMid stMid
  rw [← ht] at hp hid hclean
  refine ⟨p, hp, hid, hclean, fun hopt => ?_⟩
  have : strHasPre "*" t.ObjectName = false := hopt
  rw [hclean, strHasPre_false_dropStar this]
  exact hid

/-- Witness for the amended C5 at a concrete classification. -/
theorem parseTypeDecl_typeID_amended_witness :
    ∃ p, (p = plPkg.path ∨
        p = ({ TypeID := "pl.int", TypeName := "int", ObjectName := "int",
               CleanObjectName := "int", UnderlyingTypeName := "int",
               ObjectNameLowerCamel := "int", JSType := "number",
               TSType := "number", SwiftType := "Double" } : OtoType).Package) ∧
      ("pl.int" : String) = p ++ "." ++ "int" ∧
      ("int" : String) = dropStar "int" ∧
      (OtoType.IsOptional ({ TypeID := "pl.int", TypeName := "int",
                             ObjectName := "int", CleanObjectName := "int",
                             UnderlyingTypeName := "int",
                             ObjectNameLowerCamel := "int", JSType := "number",
                             TSType := "number",
                             SwiftType := "Double" } : OtoType) = false →
        ("pl.int" : String) = p ++ "." ++ "int") :=
  parseTypeDecl_typeID_amended [] plPkg 2 (.basic "int") {}
    { TypeID := "pl.int", TypeName := "int", ObjectName := "int",
      CleanObjectName := "int", UnderlyingTypeName := "int",
      ObjectNameLowerCamel := "int", JSType := "number", TSType := "number",
      SwiftType := "Double" } {} rfl

/-! ## C7 and C10: comment metadata extraction -/

theorem wsp_head_dropWhile {l : List Char} {a : Char}
    (h : (l.dropWhile isWsp).head? = some a) : isWsp a = false := by
  have := List.head?_dropWhile_not isWsp l
  rw [h] at this
  exact this

theorem trimChars_idem (cs : List Char) :
    trimChars (trimChars cs) = trimChars cs := by
  unfold trimChars
  set A := cs.dropWhile isWsp with hA
  set C := A.reverse.dropWhile isWsp with hC
  have hCd : C.dropWhile isWsp = C := by
    cases hc : C with
    | nil => simp
    | cons a as =>
      have ha : isWsp a = false := by
        apply wsp_head_dropWhile (l := A.reverse)
        rw [← hC, hc]
        rfl
      simp [List.dropWhile_cons, ha]
  have hrev : C.reverse.dropWhile isWsp = C.reverse := by
    cases hcr : C.reverse with
    | nil => simp
    | cons b bs =>
      have hbC : C.getLast? = some b := by
        rw [← List.head?_reverse, hcr]; rfl
      have hCne : C ≠ [] := by
        intro h0
        rw [h0] at hbC
        simp at hbC
      have hAeq : A.reverse = A.reverse.takeWhile isWsp ++ C := by
        rw [hC, List.takeWhile_append_dropWhile]
      have hbA : A.reverse.getLast? = some b := by
        rw [hAeq, List.getLast?_append_of_ne_nil _ hCne]
        exact hbC
      have hbhead : A.head? = some b := by
        rw [← List.getLast?_reverse]
        exact hbA
      have hwb : isWsp b = false := by
        apply wsp_head_dropWhile (l := cs)
        rw [← hA]
        exact hbhead
      rw [List.dropWhile_cons, hwb]
      simp
  rw [hrev, List.reverse_reverse, hCd]

theorem goTrim_idem (s : String) : goTrim (goTrim s) = goTrim s :=
  congrArg String.mk (trimChars_idem s.toList)

theorem allWsp_of_trimChars_nil {cs : List Char} (h : trimChars cs = []) :
    ∀ a ∈ cs, isWsp a = true := by
  intro a ha
  have h2 : (cs.dropWhile isWsp).reverse.dropWhile isWsp = [] := by
    simpa [trimChars] using congrArg List.reverse h
  have h3 : ∀ x ∈ (cs.dropWhile isWsp).reverse, isWsp x = true :=
    List.dropWhile_eq_nil_iff.mp h2
  have h4 : ∀ x ∈ cs.dropWhile isWsp, isWsp x = true := by
    intro x hx
    exact h3 x (List.mem_reverse.mpr hx)
  rcases List.mem_append.mp
    (by rw [List.takeWhile_append_dropWhile] ; exact ha :
      a ∈ cs.takeWhile isWsp ++ cs.dropWhile isWsp) with h5 | h5
  · exact List.mem_takeWhile_imp h5
  · exact h4 a h5

theorem regexMatch_goTrim_ne_empty {s : String}
    (h : metadataCommentRegexMatch s = true) : goTrim s ≠ "" := by
  intro he
  have hinf : ": ".toList <:+: s.toList := of_decide_eq_true h
  have hc : ':' ∈ s.toList := hinf.subset (by simp)
  have hnil : trimChars s.toList = [] := by
    have := congrArg String.toList he
    simpa [goTrim] using this
  have := allWsp_of_trimChars_nil hnil ':' hc
  simp [isWsp] at this

/-- One scan step on a metadata-candidate line: the line is split on the
first ": " occurrence; an unparseable value drops the line entirely,
a parseable one stores it under the key; either way the line never
reaches the remainder accumulator. (The scanner's re-trim of an
already-trimmed line is erased by `goTrim_idem`, and its dead
empty-line early return is unreachable because a matching line
contains ": ".) -/
theorem extractLines_candidate_step (l : String) (rest : List String)
    (md : List (String × Jval)) (acc : List String)
    (hm : metadataCommentRegexMatch (goTrim l) = true) :
    (jsonUnmarshal (goTrim (String.intercalate ": "
        ((strSplitOn (goTrim l) ": ").tail))) = none →
      extractLines (l :: rest) md acc = extractLines rest md acc) ∧
    (∀ v, jsonUnmarshal (goTrim (String.intercalate ": "
        ((strSplitOn (goTrim l) ": ").tail))) = some v →
      extractLines (l :: rest) md acc =
        extractLines rest
          (insertMeta md ((strSplitOn (goTrim l) ": ").headD "") v) acc) := by
  have hid : goTrim (goTrim l) = goTrim l := goTrim_idem l
  have hne : goTrim l ≠ "" := hid ▸ regexMatch_goTrim_ne_empty hm
  constructor
  · intro hj
    simp [extractLines, hm, hne, hid, hj]
  · intro v hj
    simp [extractLines, hm, hne, hid, hj]

theorem extractLines_acc (ls : List String) : ∀ md acc,
    (extractLines ls md acc).2 = acc ++ ls.filterMap fun l =>
      let t := goTrim l
      if metadataCommentRegexMatch t ∨ t = "" then none else some t := by
  induction ls with
  | nil =>
    intro md acc
    simp [extractLines]
  | cons l rest ih =>
    intro md acc
    by_cases hm : metadataCommentRegexMatch (goTrim l) = true
    · cases hj : jsonUnmarshal (goTrim (String.intercalate ": "
          ((strSplitOn (goTrim l) ": ").tail))) with
      | none =>
        rw [(extractLines_candidate_step l rest md acc hm).1 hj, ih]
        simp [hm]
      | some v =>
        rw [(extractLines_candidate_step l rest md acc hm).2 v hj, ih]
        simp [hm]
    · have hm' : metadataCommentRegexMatch (goTrim l) = false := by
        simpa using hm
      by_cases hb : goTrim l = ""
      · rw [show extractLines (l :: rest) md acc = extractLines rest md acc from by
            simp only [extractLines, hm', goTrim_idem, hb]
            rfl]
        rw [ih]
        simp [hm', hb]
      · rw [show extractLines (l :: rest) md acc =
            extractLines rest md (acc ++ [goTrim l]) from by
            simp [extractLines, hm', goTrim_idem, hb]]
        rw [ih]
        simp [hm', hb]

theorem extract_remainder (comment : String) :
    (extractCommentMetadata comment).2.1 =
      String.intercalate "\n" (remainderLines comment) := by
  simp [extractCommentMetadata, extractLines_acc, remainderLines]

theorem remainderLines_no_candidate (comment l : String)
    (h : l ∈ remainderLines comment) : metadataCommentRegexMatch l = false := by
  simp only [remainderLines, List.mem_filterMap] at h
  obtain ⟨x, _, hcond⟩ := h
  by_cases hc : metadataCommentRegexMatch (goTrim x) = true ∨ goTrim x = ""
  · rw [if_pos hc] at hcond
    exact absurd hcond (by simp)
  · rw [if_neg hc] at hcond
    have hx : goTrim x = l := by
      simpa using hcond
    push_neg at hc
    have := hc.1
    rw [hx] at this
    simpa using this

theorem regexMatch_append (a b : String) :
    metadataCommentRegexMatch (a ++ ": " ++ b) = true := by
  apply decide_eq_true
  refine ⟨a.toList, b.toList, ?_⟩
  simp [String.toList, String.data_append]

/-- C7: metadata extraction splits each candidate line on the first
": " occurrence and parses the value with the JSON grammar; a failing
value drops the line without aborting; the remainder is exactly the
non-metadata, non-blank trimmed lines rejoined with newlines in order;
no metadata-candidate line ever appears in the remainder; and the
function returns a nil error on every input. -/
theorem extractCommentMetadata_spec :
    (∀ comment, (extractCommentMetadata comment).2.1 =
      String.intercalate "\n" (remainderLines comment)) ∧
    (∀ (l : String) (rest : List String) md acc,
      metadataCommentRegexMatch (goTrim l) = true →
      ((jsonUnmarshal (goTrim (String.intercalate ": "
          ((strSplitOn (goTrim l) ": ").tail))) = none →
        extractLines (l :: rest) md acc = extractLines rest md acc) ∧
       (∀ v, jsonUnmarshal (goTrim (String.intercalate ": "
          ((strSplitOn (goTrim l) ": ").tail))) = some v →
        extractLines (l :: rest) md acc =
          extractLines rest
            (insertMeta md ((strSplitOn (goTrim l) ": ").headD "") v) acc))) ∧
    (∀ comment l, l ∈ remainderLines comment →
      metadataCommentRegexMatch l = false) ∧
    (∀ comment, (extractCommentMetadata comment).2.2 = none) :=
  ⟨extract_remainder,
   fun l rest md acc hm => extractLines_candidate_step l rest md acc hm,
   remainderLines_no_candidate,
   fun _ => rfl⟩

/-- Witness for C7 on a concrete comment mixing prose, a parsed
metadata line, a blank line and a dropped candidate line. -/
theorem extractCommentMetadata_spec_witness :
    (extractCommentMetadata
        "intro\nexample: \"hello\"\n\nNote: see below\nmore").2.1 =
      "intro\nmore" ∧
    extractLines ["Note: see below"] [] [] = extractLines [] [] [] := by
  constructor
  · rw [extractCommentMetadata_spec.1]
    rfl
  · exact (extractCommentMetadata_spec.2.1 "Note: see below" [] [] []
      (by decide)).1 (by rfl)

/-- C10: any line containing ": " anywhere matches the metadata
regex - including ordinary prose - and a candidate whose value is not
valid JSON is dropped from both the metadata map and the remainder;
"Note: see below" vanishes entirely; extraction never returns a
non-nil error. -/
theorem metadataCandidate_spec :
    (∀ a b : String, metadataCommentRegexMatch (a ++ ": " ++ b) = true) ∧
    (∀ (l : String) (rest : List String) md acc,
      metadataCommentRegexMatch (goTrim l) = true →
      jsonUnmarshal (goTrim (String.intercalate ": "
        ((strSplitOn (goTrim l) ": ").tail))) = none →
      extractLines (l :: rest) md acc = extractLines rest md acc) ∧
    (extractCommentMetadata "Note: see below" = ([], "", none)) ∧
    (∀ comment, (extractCommentMetadata comment).2.2 = none) :=
  ⟨regexMatch_append,
   fun l rest md acc hm hj => (extractLines_candidate_step l rest md acc hm).1 hj,
   rfl,
   fun _ => rfl⟩

/-- Witness for C10: prose with ": " is a metadata candidate. -/
theorem metadataCandidate_spec_witness :
    metadataCommentRegexMatch ("Note" ++ ": " ++ "see below") = true :=
  metadataCandidate_spec.1 "Note" "see below"

/-! ## C3: output field injection -/

theorem appendErrorField_miss (objs : List Object) (n : String)
    (h : ∀ o ∈ objs, o.Name ≠ n) : appendErrorField objs n = objs := by
  induction objs with
  | nil => rfl
  | cons o rest ih =>
    have ho : o.Name ≠ n := h o (List.mem_cons_self o rest)
    simp only [appendErrorField, if_neg ho]
    rw [ih fun x hx => h x (List.mem_cons_of_mem o hx)]

theorem appendErrorField_names (objs : List Object) (n : String) :
    (appendErrorField objs n).map Object.Name = objs.map Object.Name := by
  induction objs with
  | nil => rfl
  | cons o rest ih =>
    by_cases ho : o.Name = n
    · simp [appendErrorField, ho]
    · simp [appendErrorField, ho, ih]

theorem appendErrorField_forall₂ (objs : List Object) (n : String)
    (hnd : (objs.map Object.Name).Nodup) :
    List.Forall₂ (fun o o' =>
      if o.Name = n then o' = { o with Fields := o.Fields ++ [errorField] }
      else o' = o) objs (appendErrorField objs n) := by
  induction objs with
  | nil => exact List.Forall₂.nil
  | cons o rest ih =>
    simp only [List.map_cons, List.nodup_cons] at hnd
    by_cases ho : o.Name = n
    · simp only [appendErrorField, if_pos ho]
      refine List.Forall₂.cons (by simp [ho]) ?_
      rw [List.forall₂_same]
      intro x hx
      have hxn : x.Name ≠ n := fun he =>
        hnd.1 (List.mem_map.mpr ⟨x, hx, he.trans ho.symm⟩)
      simp [hxn]
    · simp only [appendErrorField, if_neg ho]
      exact List.Forall₂.cons (by simp [ho]) (ih hnd.2)
theorem addOutputFields_forall₂ (names : List String) :
    ∀ objs : List Object, names.Nodup → (objs.map Object.Name).Nodup →
    List.Forall₂ (fun o o' =>
      if o.Name ∈ names then o' = { o with Fields := o.Fields ++ [errorField] }
      else o' = o) objs (addOutputFields names objs) := by
  induction names with
  | nil =>
    intro objs _ _
    rw [show addOutputFields [] objs = objs from rfl, List.forall₂_same]
    intro x _
    simp
  | cons n rest ih =>
    intro objs hnn hobj
    simp only [List.nodup_cons] at hnn
    have h1 := appendErrorField_forall₂ objs n hobj
    have hobj2 : ((appendErrorField objs n).map Object.Name).Nodup := by
      rw [appendErrorField_names]; exact hobj
    have h2 := ih (appendErrorField objs n) hnn.2 hobj2
    have hstep : addOutputFields (n :: rest) objs =
        addOutputFields rest (appendErrorField objs n) := rfl
    rw [hstep]
    rw [List.forall₂_iff_get] at h1 h2 ⊢
    refine ⟨h1.1.trans h2.1, ?_⟩
    intro i hi1 hi2
    have hiMid : i < (appendErrorField objs n).length := by omega
    have r1 := h1.2 i hi1 hiMid
    have r2 := h2.2 i hiMid hi2
    set o := objs.get ⟨i, hi1⟩ with ho
    set oMid := (appendErrorField objs n).get ⟨i, hiMid⟩ with hoMid
    set oFin := (addOutputFields rest (appendErrorField objs n)).get ⟨i, hi2⟩ with hoFin
    by_cases hn : o.Name = n
    · rw [if_pos hn] at r1
      have hMidName : oMid.Name = o.Name := by rw [r1]
      have hnotin : oMid.Name ∉ rest := by
        rw [hMidName, hn]; exact hnn.1
      rw [if_neg hnotin] at r2
      have : o.Name ∈ n :: rest := by simp [hn]
      rw [if_pos this]
      rw [r2, r1]
    · by_cases hr : o.Name ∈ rest
      · rw [if_neg hn] at r1
        have hMidName : oMid.Name = o.Name := by rw [r1]
        rw [if_pos (hMidName ▸ hr)] at r2
        have : o.Name ∈ n :: rest := by simp [hr]
        rw [if_pos this, r2, r1]
      · rw [if_neg hn] at r1
        have hMidName : oMid.Name = o.Name := by rw [r1]
        rw [if_neg (by rw [hMidName]; exact hr)] at r2
        have : o.Name ∉ n :: rest := by simp [hn, hr]
        rw [if_neg this, r2, r1]
theorem mem_insertSet (l : List String) (s : String) : s ∈ insertSet l s := by
  by_cases h : s ∈ l <;> simp [insertSet, h]

theorem parseMethod_records_output (env : Env) (pkg : PkgInfo) (fuel : Nat)
    (m : MethodDecl) (st : PState) (mm : Method) (st' : PState)
    (h : parseMethod env pkg fuel m st = .ok (mm, st')) :
    mm.OutputObject.TypeName ∈ st'.outputObjects := by
  simp only [parseMethod] at h
  split at h
  · exact absurd h (by simp)
  · split at h
    · exact absurd h (by simp)
    · split at h
      · exact absurd h (by simp)
      next inT st1 heq1 =>
        split at h
        · exact absurd h (by simp)
        · split at h
          · exact absurd h (by simp)
          · split at h
            · exact absurd h (by simp)
            next outT st2 heq2 =>
              simp only [pure, Except.pure, Except.ok.injEq, Prod.mk.injEq] at h
              obtain ⟨hm, hs⟩ := h
              rw [← hm, ← hs]
              exact mem_insertSet st2.outputObjects outT.TypeName
/-- C3: after traversal, the output-field injector appends exactly one
"Error" field (string-typed, omit-if-empty) to each object whose name
is in the recorded output-names set, leaves every other object
untouched, silently skips lookup misses, and `parseMethod` records each
method's OutputObject TypeName into that set on success. -/
theorem addOutputFields_spec :
    (errorField.Name = "Error" ∧ errorField.type.TypeName = "string" ∧
      errorField.OmitEmpty = true) ∧
    (∀ (names : List String) (objs : List Object), names.Nodup →
      (objs.map Object.Name).Nodup →
      List.Forall₂ (fun o o' =>
        (o.Name ∈ names → o' = { o with Fields := o.Fields ++ [errorField] }) ∧
        (o.Name ∉ names → o' = o)) objs (addOutputFields names objs)) ∧
    (∀ (objs : List Object) (n : String), (∀ o ∈ objs, o.Name ≠ n) →
      appendErrorField objs n = objs) ∧
    (∀ (env : Env) (pkg : PkgInfo) (fuel : Nat) (m : MethodDecl) (st : PState)
      (mm : Method) (st' : PState), parseMethod env pkg fuel m st = .ok (mm, st') →
      mm.OutputObject.TypeName ∈ st'.outputObjects) := by
  refine ⟨⟨rfl, rfl, rfl⟩, ?_, appendErrorField_miss, parseMethod_records_output⟩
  intro names objs h1 h2
  refine (addOutputFields_forall₂ names objs h1 h2).imp ?_
  intro a b hab
  constructor
  · intro hm
    rwa [if_pos hm] at hab
  · intro hm
    rwa [if_neg hm] at hab

/-- Witness for C3 on a two-object pool with one recorded output. -/
theorem addOutputFields_spec_witness :
    List.Forall₂ (fun o o' =>
      (o.Name ∈ ["B"] → o' = { o with Fields := o.Fields ++ [errorField] }) ∧
      (o.Name ∉ ["B"] → o' = o))
      [({ Name := "A" } : Object), { Name := "B" }]
      (addOutputFields ["B"] [({ Name := "A" } : Object), { Name := "B" }]) :=
  addOutputFields_spec.2.1 ["B"] [{ Name := "A" }, { Name := "B" }]
    (by simp) (by simp)

/-! ## Stage lemmas for the concrete exclusion scenario, and C2/C4/C9 -/

theorem stage_loop : parseTypeDecl testEnv plPkg 9 loopRef {} = .ok (tLoopV, stLoopV) := by
  decide

theorem stage_T2 : parseTypeDecl exclEnv plPkg 7 aRespRef stT1V = .ok (tAV, stT2V) := by
  decide

theorem parseMethod_one_one (env : Env) (pkg : PkgInfo) (fuel : Nat)
    (nm dc : String) (p r : TypeExpr) (inT outT : OtoType) (st st1 st2 : PState)
    (hp : parseTypeDecl env pkg fuel p st = .ok (inT, st1))
    (hr : parseTypeDecl env pkg fuel r st1 = .ok (outT, st2)) :
    parseMethod env pkg fuel { name := nm, doc := dc, params := [p], results := [r] } st =
      .ok ({ Name := nm, NameLowerCamel := camelizeDown nm,
             Comment := (extractCommentMetadata dc).2.1,
             Metadata := (extractCommentMetadata dc).1,
             InputObject := inT, OutputObject := outT },
           { st2 with outputObjects := insertSet st2.outputObjects outT.TypeName }) := by
  simp only [parseMethod]
  rw [if_neg (by simp)]
  rw [if_neg (by simp)]
  simp only [List.getLastD, List.headD, List.getLast]
  rw [hp]
  dsimp only
  rw [if_neg (by simp)]
  rw [if_neg (by simp)]
  rw [hr]
  dsimp only
  rfl

theorem stage_T1 : parseTypeDecl exclEnv plPkg 7 sharedRef {} = .ok (tSharedV, stT1V) := by
  decide

theorem stage_M1 : parseMethod exclEnv plPkg 7 mDoA {} = .ok (mAV, stM1V) := by
  have h := parseMethod_one_one exclEnv plPkg 7 "DoA" "" sharedRef aRespRef tSharedV tAV
    {} stT1V stT2V stage_T1 stage_T2
  exact h.trans (by decide)

theorem stage_T3 : parseTypeDecl exclEnv plPkg 7 sharedRef stM1V = .ok (tSharedV, stM1V) := by
  decide

theorem stage_T4 : parseTypeDecl exclEnv plPkg 7 bRespRef stM1V = .ok (tBV, stT4V) := by
  decide

theorem stage_M2 : parseMethod exclEnv plPkg 7 mDoB stM1V = .ok (mBV, stM2V) := by
  have h := parseMethod_one_one exclEnv plPkg 7 "DoB" "" sharedRef bRespRef tSharedV tBV
    stM1V stM1V stT4V stage_T3 stage_T4
  exact h.trans (by decide)

theorem parseServiceMethods_nil (env : Env) (pkg : PkgInfo) (fuel : Nat) (st : PState) :
    parseServiceMethods env pkg fuel [] st = .ok ([], st) := rfl

theorem parseServiceMethods_cons (env : Env) (pkg : PkgInfo) (fuel : Nat)
    (m : MethodDecl) (rest : List MethodDecl) (st : PState) (mm : Method) (st1 : PState)
    (ms : List Method) (st2 : PState)
    (h1 : parseMethod env pkg fuel m st = .ok (mm, st1))
    (h2 : parseServiceMethods env pkg fuel rest st1 = .ok (ms, st2)) :
    parseServiceMethods env pkg fuel (m :: rest) st = .ok (mm :: ms, st2) := by
  simp only [parseServiceMethods]
  rw [h1, ok_bind]
  dsimp only
  rw [h2, ok_bind]
  rfl

theorem parseService_eval (env : Env) (pkg : PkgInfo) (fuel : Nat) (nm : String)
    (ms : List MethodDecl) (msv : List Method) (st st1 : PState)
    (h : parseServiceMethods env pkg fuel ms st = .ok (msv, st1)) :
    parseService env pkg fuel { name := nm, methods := ms } st =
      .ok ({ Name := nm,
             Comment := (extractCommentMetadata (lookupStr pkg.typeDocs nm)).2.1,
             Metadata := (extractCommentMetadata (lookupStr pkg.typeDocs nm)).1,
             Methods := msv }, st1) := by
  simp only [parseService]
  rw [h]
  rfl

theorem stage_SvcA : parseService exclEnv plPkg 7 ifaceA {} = .ok (svcAV, stM1V) := by
  have h := parseService_eval exclEnv plPkg 7 "AService" [mDoA] [mAV] {} stM1V
    (parseServiceMethods_cons exclEnv plPkg 7 mDoA [] {} mAV stM1V [] stM1V stage_M1
      (parseServiceMethods_nil exclEnv plPkg 7 stM1V))
  exact h.trans (by decide)

theorem stage_SvcB : parseService exclEnv plPkg 7 ifaceB stM1V = .ok (svcBV, stM2V) := by
  have h := parseService_eval exclEnv plPkg 7 "BService" [mDoB] [mBV] stM1V stM2V
    (parseServiceMethods_cons exclEnv plPkg 7 mDoB [] stM1V mBV stM2V [] stM2V stage_M2
      (parseServiceMethods_nil exclEnv plPkg 7 stM2V))
  exact h.trans (by decide)

theorem parseScope_nil (env : Env) (pkg : PkgInfo) (fuel : Nat)
    (inc exc : List String) (st : PState) (ex : List String) :
    parseScope env pkg fuel inc exc [] st ex = .ok (st, ex) := rfl

theorem parseScope_cons_excluded (env : Env) (pkg : PkgInfo) (fuel : Nat)
    (exc : List String) (i : IfaceDecl) (rest : List IfaceDecl) (st : PState)
    (ex : List String) (s : Service) (st1 : PState)
    (r : Except String (PState × List String))
    (hs : parseService env pkg fuel i st = .ok (s, st1))
    (hx : isInSlice exc i.name = true)
    (hrest : parseScope env pkg fuel [] exc rest st1
        (ex ++ s.Methods.flatMap fun m => [m.InputObject.TypeID, m.OutputObject.TypeID]) = r) :
    parseScope env pkg fuel [] exc (i :: rest) st ex = r := by
  simp only [parseScope]
  rw [if_neg (by simp)]
  rw [hs, ok_bind]
  dsimp only
  rw [if_pos hx]
  exact hrest

theorem parseScope_cons_retained (env : Env) (pkg : PkgInfo) (fuel : Nat)
    (exc : List String) (i : IfaceDecl) (rest : List IfaceDecl) (st : PState)
    (ex : List String) (s : Service) (st1 : PState)
    (r : Except String (PState × List String))
    (hs : parseService env pkg fuel i st = .ok (s, st1))
    (hx : isInSlice exc i.name = false)
    (hrest : parseScope env pkg fuel [] exc rest
        { st1 with services := st1.services ++ [s] } ex = r) :
    parseScope env pkg fuel [] exc (i :: rest) st ex = r := by
  simp only [parseScope]
  rw [if_neg (by simp)]
  rw [hs, ok_bind]
  dsimp only
  rw [if_neg (by simp [hx])]
  exact hrest

theorem stage_scope :
    parseScope exclEnv plPkg 7 [] ["AService"] exclIfaces {} [] =
      .ok (stScopeV, ["pl.SharedRequest", "pl.AResponse"]) := by
  refine parseScope_cons_excluded exclEnv plPkg 7 ["AService"] ifaceA [ifaceB] {} []
    svcAV stM1V _ stage_SvcA (by decide) ?_
  refine parseScope_cons_retained exclEnv plPkg 7 ["AService"] ifaceB [] stM1V _
    svcBV stM2V _ stage_SvcB (by decide) ?_
  exact (parseScope_nil exclEnv plPkg 7 [] ["AService"] _ _).trans (by decide)

theorem Parse_eval (env : Env) (pkg : PkgInfo) (fuel : Nat) (ifaces : List IfaceDecl)
    (inc exc : List String) (st : PState) (ex : List String)
    (h : parseScope env pkg fuel inc exc ifaces {} [] = .ok (st, ex)) :
    Parse env pkg fuel ifaces inc exc =
      .ok { PackageName := pkg.name,
            Services := List.insertionSort (fun a b => strLeB a.Name b.Name = true) st.services,
            Objects := addOutputFields st.outputObjects
              (List.insertionSort (fun a b => strLeB a.Name b.Name = true)
                (pruneObjects ex st.defObjects)),
            Imports := st.imports } := by
  simp only [Parse]
  rw [h]
  rfl

theorem stage_Parse : Parse exclEnv plPkg 7 exclIfaces [] ["AService"] = .ok dExclV := by
  have h := Parse_eval exclEnv plPkg 7 exclIfaces [] ["AService"] stScopeV
    ["pl.SharedRequest", "pl.AResponse"] stage_scope
  exact h.trans (by decide)

theorem strLeL_total (as bs : List Char) : strLeL as bs = true ∨ strLeL bs as = true := by
  induction as generalizing bs with
  | nil => left; rfl
  | cons a as ih =>
    cases bs with
    | nil => right; rfl
    | cons b bs =>
      rcases lt_trichotomy a b with h | h | h
      · left; simp [strLeL, h]
      · subst h
        rcases ih bs with h2 | h2
        · left; simp [strLeL, lt_irrefl, h2]
        · right; simp [strLeL, lt_irrefl, h2]
      · right; simp [strLeL, h]

theorem strLeL_trans (as bs cs : List Char)
    (h1 : strLeL as bs = true) (h2 : strLeL bs cs = true) : strLeL as cs = true := by
  induction as generalizing bs cs with
  | nil => rfl
  | cons a as ih =>
    cases bs with
    | nil => simp [strLeL] at h1
    | cons b bs =>
      cases cs with
      | nil => simp [strLeL] at h2
      | cons c cs =>
        by_cases hab : a < b
        · by_cases hbc : b < c
          · simp [strLeL, lt_trans hab hbc]
          · by_cases hcb : c < b
            · simp [strLeL, hbc, hcb] at h2
            · have hbc' : b = c := le_antisymm (not_lt.mp hcb) (not_lt.mp hbc)
              subst hbc'
              simp [strLeL, hab]
        · by_cases hba : b < a
          · simp [strLeL, hab, hba] at h1
          · have hab' : a = b := le_antisymm (not_lt.mp hba) (not_lt.mp hab)
            subst hab'
            simp only [strLeL, lt_irrefl, if_false] at h1
            by_cases hac : a < c
            · simp [strLeL, hac]
            · by_cases hca : c < a
              · simp [strLeL, hac, hca] at h2
              · have hac' : a = c := le_antisymm (not_lt.mp hca) (not_lt.mp hac)
                subst hac'
                simp only [strLeL, lt_irrefl, if_false] at h2 ⊢
                exact ih bs cs h1 h2

theorem addOutputFields_names (names : List String) (objs : List Object) :
    (addOutputFields names objs).map Object.Name = objs.map Object.Name := by
  induction names generalizing objs with
  | nil => rfl
  | cons n rest ih =>
    simp only [addOutputFields, List.foldl_cons] at ih ⊢
    rw [ih, appendErrorField_names]

theorem pairwise_names_transfer (l l2 : List Object)
    (h : l2.map Object.Name = l.map Object.Name)
    (hp : l.Pairwise (fun a b => strLeB a.Name b.Name = true)) :
    l2.Pairwise (fun a b => strLeB a.Name b.Name = true) := by
  have h2 : (l.map Object.Name).Pairwise (fun x y => strLeB x y = true) :=
    List.pairwise_map.mpr hp
  rw [← h] at h2
  exact List.pairwise_map.mp h2

theorem insertionSort_sorted_services (l : List Service) :
    (List.insertionSort (fun a b => strLeB a.Name b.Name = true) l).Pairwise
      (fun a b => strLeB a.Name b.Name = true) := by
  haveI : IsTotal Service (fun a b => strLeB a.Name b.Name = true) :=
    ⟨fun a b => strLeL_total a.Name.toList b.Name.toList⟩
  haveI : IsTrans Service (fun a b => strLeB a.Name b.Name = true) :=
    ⟨fun a b c => strLeL_trans a.Name.toList b.Name.toList c.Name.toList⟩
  exact List.sorted_insertionSort _ l

theorem insertionSort_sorted_objects (l : List Object) :
    (List.insertionSort (fun a b => strLeB a.Name b.Name = true) l).Pairwise
      (fun a b => strLeB a.Name b.Name = true) := by
  haveI : IsTotal Object (fun a b => strLeB a.Name b.Name = true) :=
    ⟨fun a b => strLeL_total a.Name.toList b.Name.toList⟩
  haveI : IsTrans Object (fun a b => strLeB a.Name b.Name = true) :=
    ⟨fun a b c => strLeL_trans a.Name.toList b.Name.toList c.Name.toList⟩
  exact List.sorted_insertionSort _ l

/-- C2: object construction terminates on self-referential records: the
re-entrant `parseObject` call for an already-registered name is a no-op for
every environment, field list and state (the fields are never read); and for
the repository's own self-referential `InfiniteLoop` record the Object
appears exactly once in the pool and its self-referential field's Type is
marked optional (classified through the pointer wrapper). -/
theorem parseObject_self_reference :
    (∀ (env : Env) (pkg : PkgInfo) (fuel : Nat) (p pn n : String)
       (fields : List FieldDecl) (st : PState), n ∈ st.objects →
       parseObject env pkg (fuel + 1) p pn n fields st = .ok st) ∧
    parseTypeDecl testEnv plPkg 9 loopRef {} = .ok (tLoopV, stLoopV) ∧
    stLoopV.defObjects.map Object.Name = ["InfiniteLoop"] ∧
    (∀ o ∈ stLoopV.defObjects, ∀ f ∈ o.Fields, f.type.IsOptional = true) := by
  refine ⟨?_, stage_loop, by decide, by decide⟩
  intro env pkg fuel p pn n fields st h
  simp only [parseObject, if_pos h]
  rfl

/-- C2 witness: the re-entrant construction request for the registered name
`InfiniteLoop` leaves the concrete state unchanged. -/
theorem parseObject_self_reference_witness :
    "InfiniteLoop" ∈ PState.objects { objects := ["InfiniteLoop"] } ∧
    parseObject testEnv plPkg 1 "pl" "pleasantries" "InfiniteLoop" []
      { objects := ["InfiniteLoop"] } = .ok { objects := ["InfiniteLoop"] } :=
  ⟨by decide,
   parseObject_self_reference.1 testEnv plPkg 0 "pl" "pleasantries" "InfiniteLoop" []
     { objects := ["InfiniteLoop"] } (by decide)⟩

/-- C4: pruning is a whole-list pass at the end of `Parse`: an Object is
removed iff its TypeID is in the excluded-TypeID list, which is exactly the
Input/Output TypeIDs of the excluded service's methods; in the concrete
scenario the shared request object is still in the pool after the full
traversal (nothing is pruned incrementally), and although the retained
service `BService` references it, it is absent from the final Objects. -/
theorem Parse_exclusion_prune :
    (∀ (ex : List String) (objs : List Object) (o : Object),
       o ∈ pruneObjects ex objs ↔ o ∈ objs ∧ isInSlice ex o.TypeID = false) ∧
    parseScope exclEnv plPkg 7 [] ["AService"] exclIfaces {} [] =
      .ok (stScopeV, [mAV.InputObject.TypeID, mAV.OutputObject.TypeID]) ∧
    oSharedV ∈ stScopeV.defObjects ∧ oAV ∈ stScopeV.defObjects ∧
    Parse exclEnv plPkg 7 exclIfaces [] ["AService"] = .ok dExclV ∧
    svcBV ∈ dExclV.Services ∧ mBV ∈ svcBV.Methods ∧
    mBV.InputObject.TypeID = oSharedV.TypeID ∧
    dExclV.Objects.map Object.Name = ["BResponse"] := by
  refine ⟨?_, stage_scope.trans (by decide), by decide, by decide, stage_Parse,
    by decide, by decide, by decide, by decide⟩
  intro ex objs o
  simp [pruneObjects, List.mem_filter]

/-- C4 witness: an object whose TypeID is not among the excluded TypeIDs
survives the pruning pass. -/
theorem Parse_exclusion_prune_witness :
    oBV ∈ pruneObjects [mAV.InputObject.TypeID, mAV.OutputObject.TypeID]
      [oSharedV, oAV, oBV] :=
  (Parse_exclusion_prune.1 [mAV.InputObject.TypeID, mAV.OutputObject.TypeID]
    [oSharedV, oAV, oBV] oBV).mpr ⟨by decide, by decide⟩

/-- C9: every Definition returned by `Parse` has its Services and its
Objects sorted ascending by name under case-sensitive ordinal comparison;
the Objects sort is applied to the pruned pool and the output-field
injection happens after sorting (and preserves names, hence order), so
repeated builds of the same source yield the same ordering. -/
theorem Parse_sorted (env : Env) (pkg : PkgInfo) (fuel : Nat)
    (ifaces : List IfaceDecl) (inc exc : List String) (d : Definition)
    (h : Parse env pkg fuel ifaces inc exc = .ok d) :
    d.Services.Pairwise (fun a b => strLeB a.Name b.Name = true) ∧
    d.Objects.Pairwise (fun a b => strLeB a.Name b.Name = true) ∧
    ∃ st ex, parseScope env pkg fuel inc exc ifaces {} [] = .ok (st, ex) ∧
      d.Services = List.insertionSort (fun a b => strLeB a.Name b.Name = true) st.services ∧
      d.Objects = addOutputFields st.outputObjects
        (List.insertionSort (fun a b => strLeB a.Name b.Name = true)
          (pruneObjects ex st.defObjects)) := by
  simp only [Parse] at h
  cases hsc : parseScope env pkg fuel inc exc ifaces {} [] with
  | error e =>
    rw [hsc, error_bind] at h
    cases h
  | ok p =>
    obtain ⟨st, ex⟩ := p
    rw [hsc, ok_bind] at h
    have h2 : Except.ok
        ({ PackageName := pkg.name,
           Services := List.insertionSort (fun a b => strLeB a.Name b.Name = true) st.services,
           Objects := addOutputFields st.outputObjects
             (List.insertionSort (fun a b => strLeB a.Name b.Name = true)
               (pruneObjects ex st.defObjects)),
           Imports := st.imports } : Definition) = Except.ok d := h
    injection h2 with h3
    subst h3
    refine ⟨insertionSort_sorted_services st.services, ?_, st, ex, rfl, rfl, rfl⟩
    exact pairwise_names_transfer
      (List.insertionSort (fun a b => strLeB a.Name b.Name = true)
        (pruneObjects ex st.defObjects))
      (addOutputFields st.outputObjects
        (List.insertionSort (fun a b => strLeB a.Name b.Name = true)
          (pruneObjects ex st.defObjects)))
      (addOutputFields_names st.outputObjects
        (List.insertionSort (fun a b => strLeB a.Name b.Name = true)
          (pruneObjects ex st.defObjects)))
      (insertionSort_sorted_objects (pruneObjects ex st.defObjects))

/-- C9 witness: the exclusion scenario's Definition has sorted Services and
Objects. -/
theorem Parse_sorted_witness :
    dExclV.Services.Pairwise (fun a b => strLeB a.Name b.Name = true) ∧
    dExclV.Objects.Pairwise (fun a b => strLeB a.Name b.Name = true) :=
  ⟨(Parse_sorted exclEnv plPkg 7 exclIfaces [] ["AService"] dExclV stage_Parse).1,
   (Parse_sorted exclEnv plPkg 7 exclIfaces [] ["AService"] dExclV stage_Parse).2.1⟩

end Oto
